import Mathlib

/-!
Verification of the minecraft-holodeck command-language front-end and
geometric placement engine.

The definitions below are a shallow embedding of the Python sources:
  * `parser/ast.py`      — coordinates, positions, block specs, command ASTs
  * `world/modifier.py`  — fill-mode semantics over an abstract world
  * `api.py`             — command execution against an origin
  * `converter.py`       — bounding-box analysis and absolute→relative conversion
  * `placer.py`          — structure analysis (slices, footprints) and placement

Python `float('inf')` min/max sentinels are embedded as `Option Int`
(`none` = no value observed yet).  Exceptions are embedded as `Except PyErr`.
A script is embedded as the list of per-line lenient parse results
(`List (Option CommandAST)`, `none` for blank/comment/unparseable lines),
matching the sources' deliberate skip-bad-lines policy.
-/

namespace Holodeck

/-- Python exception classes that the embedded code can raise. -/
inductive PyErr where
  /-- `PlacementError` from `placer.py`. -/
  | placementError
  /-- `ValueError` raised by `Anchor(...)` / `Direction(...)` enum lookup. -/
  | valueError
  /-- `OverflowError` raised by `int(float('inf'))`. -/
  | overflowError
deriving Repr, DecidableEq

/-! ## parser/ast.py -/

/-- `Coordinate` — a single coordinate, absolute or relative. -/
structure Coordinate where
  value : Int
  relative : Bool
deriving Repr, DecidableEq

/-- `Coordinate.resolve`: `origin + self.value if self.relative else self.value`. -/
def Coordinate.resolve (c : Coordinate) (origin : Int) : Int :=
  if c.relative then origin + c.value else c.value

/-- `Position` — a 3D position. -/
structure Position where
  x : Coordinate
  y : Coordinate
  z : Coordinate
deriving Repr, DecidableEq

/-- `Position.resolve`: resolve each axis independently against the origin triple. -/
def Position.resolve (p : Position) (origin : Int × Int × Int) : Int × Int × Int :=
  (p.x.resolve origin.1, p.y.resolve origin.2.1, p.z.resolve origin.2.2)

/-- A block-state value: `str | int | bool` in the Python sources. -/
inductive StateValue where
  | str (s : String)
  | int (n : Int)
  | bool (b : Bool)
deriving Repr, DecidableEq

/-- `BlockSpec` — namespaced block id with optional states.
Python's insertion-ordered `dict` is embedded as an association list.
(`namespace` is a Lean keyword, so the source's `namespace` field is `ns`.) -/
structure BlockSpec where
  ns : String
  block_id : String
  states : Option (List (String × StateValue))
deriving Repr, DecidableEq

/-- `BlockSpec.full_id`: `f"{self.namespace}:{self.block_id}"`. -/
def BlockSpec.full_id (b : BlockSpec) : String :=
  b.ns ++ ":" ++ b.block_id

/-- Fill modes of `FillCommand`. -/
inductive FillMode where
  | replace
  | destroy
  | hollow
  | keep
  | outline
deriving Repr, DecidableEq

/-- `SetblockCommand` (mode is always `"replace"` in Phase 1 and is omitted). -/
structure SetblockCommand where
  position : Position
  block : BlockSpec
deriving Repr, DecidableEq

/-- `FillCommand`. -/
structure FillCommand where
  pos1 : Position
  pos2 : Position
  block : BlockSpec
  mode : FillMode
deriving Repr, DecidableEq

/-- `CommandAST = SetblockCommand | FillCommand`. -/
inductive CommandAST where
  | setblock (cmd : SetblockCommand)
  | fill (cmd : FillCommand)
deriving Repr, DecidableEq

/-- A parsed script: one entry per line, `none` for blank/comment/unparseable
lines (the sources' lenient parse policy). -/
abbrev Script := List (Option CommandAST)

/-! ## world/block_converter.py — amulet `Block` objects -/

/-- An amulet `Block`: namespace, base name, string-valued properties. -/
structure Block where
  ns : String
  base_name : String
  properties : List (String × String)
deriving Repr, DecidableEq

/-- `Block.namespaced_name`. -/
def Block.namespaced_name (b : Block) : String :=
  b.ns ++ ":" ++ b.base_name

/-- The `Block("minecraft", "air")` constant used by hollow fill and keep mode. -/
def airBlock : Block := ⟨"minecraft", "air", []⟩

/-- `blockspec_to_amulet`: convert a `BlockSpec` to an amulet `Block`;
booleans become lowercase strings, integers their decimal strings. -/
def blockspec_to_amulet (spec : BlockSpec) : Block :=
  match spec.states with
  | none => ⟨spec.ns, spec.block_id, []⟩
  | some [] => ⟨spec.ns, spec.block_id, []⟩
  | some ps =>
      ⟨spec.ns, spec.block_id,
        ps.map (fun kv =>
          (kv.1, match kv.2 with
                 | .bool b => if b then "true" else "false"
                 | .int n => toString n
                 | .str s => s))⟩

/-! ## world/modifier.py — world state and fill modes

The external amulet world is embedded as a total map from coordinates to
blocks; `set_version_block` becomes a pointwise functional update. -/

/-- The world: a total assignment of blocks to integer coordinates. -/
def World : Type := Int × Int × Int → Block

/-- A single block write (`world.set_version_block`). -/
def setBlockAt (w : World) (p : Int × Int × Int) (b : Block) : World :=
  fun q => if q = p then b else w q

/-- Python `range(lo, hi + 1)` over integers, as an inclusive list. -/
def rangeList (lo hi : Int) : List Int :=
  (List.range (hi + 1 - lo).toNat).map (fun (i : Nat) => lo + (i : Int))

/-- `WorldModifier._fill_basic`: write the block into every cell, counting each. -/
def fill_basic (w : World) (min_x min_y min_z max_x max_y max_z : Int)
    (block : Block) : World × Nat :=
  (rangeList min_x max_x).foldl (fun accx x =>
    (rangeList min_y max_y).foldl (fun accy y =>
      (rangeList min_z max_z).foldl (fun accz z =>
        (setBlockAt accz.1 (x, y, z) block, accz.2 + 1)) accy) accx) (w, 0)

/-- The boundary test inside `_fill_hollow`. -/
def onBoundary (min_x min_y min_z max_x max_y max_z x y z : Int) : Bool :=
  x == min_x || x == max_x || y == min_y || y == max_y || z == min_z || z == max_z

/-- `WorldModifier._fill_hollow`: block on the shell (counted), air in the
interior (not counted). -/
def fill_hollow (w : World) (min_x min_y min_z max_x max_y max_z : Int)
    (block : Block) : World × Nat :=
  (rangeList min_x max_x).foldl (fun accx x =>
    (rangeList min_y max_y).foldl (fun accy y =>
      (rangeList min_z max_z).foldl (fun accz z =>
        if onBoundary min_x min_y min_z max_x max_y max_z x y z then
          (setBlockAt accz.1 (x, y, z) block, accz.2 + 1)
        else
          (setBlockAt accz.1 (x, y, z) airBlock, accz.2)) accy) accx) (w, 0)

/-- `WorldModifier._fill_keep`: write only into cells whose current occupant
is `minecraft:air`. -/
def fill_keep (w : World) (min_x min_y min_z max_x max_y max_z : Int)
    (block : Block) : World × Nat :=
  (rangeList min_x max_x).foldl (fun accx x =>
    (rangeList min_y max_y).foldl (fun accy y =>
      (rangeList min_z max_z).foldl (fun accz z =>
        if (accz.1 (x, y, z)).namespaced_name == "minecraft:air" then
          (setBlockAt accz.1 (x, y, z) block, accz.2 + 1)
        else accz) accy) accx) (w, 0)

/-- `WorldModifier._fill_outline`: the three edge-loop groups of the source,
in source order (4 X-parallel edges, then 4 Y-parallel edges excluding the
already-placed corner rows, then 4 Z-parallel edges likewise). -/
def fill_outline (w : World) (min_x min_y min_z max_x max_y max_z : Int)
    (block : Block) : World × Nat :=
  let s1 := (rangeList min_x max_x).foldl (fun accx x =>
    [(min_y, min_z), (min_y, max_z), (max_y, min_z), (max_y, max_z)].foldl
      (fun acc yz => (setBlockAt acc.1 (x, yz.1, yz.2) block, acc.2 + 1)) accx) (w, 0)
  let s2 := (rangeList (min_y + 1) (max_y - 1)).foldl (fun accy y =>
    [(min_x, min_z), (min_x, max_z), (max_x, min_z), (max_x, max_z)].foldl
      (fun acc xz => (setBlockAt acc.1 (xz.1, y, xz.2) block, acc.2 + 1)) accy) s1
  (rangeList (min_z + 1) (max_z - 1)).foldl (fun accz z =>
    [(min_x, min_y), (min_x, max_y), (max_x, min_y), (max_x, max_y)].foldl
      (fun acc xy => (setBlockAt acc.1 (xy.1, z, xy.2) block, acc.2 + 1)) accz) s2

/-- `WorldModifier.fill_region`: normalize the two corners, dispatch on mode
(`replace` and `destroy` share `_fill_basic`). The unknown-mode branch is
unreachable for a typed `FillMode`. -/
def fill_region (w : World) (x1 y1 z1 x2 y2 z2 : Int) (block : Block)
    (mode : FillMode) : World × Nat :=
  let min_x := min x1 x2
  let max_x := max x1 x2
  let min_y := min y1 y2
  let max_y := max y1 y2
  let min_z := min z1 z2
  let max_z := max z1 z2
  match mode with
  | .hollow => fill_hollow w min_x min_y min_z max_x max_y max_z block
  | .outline => fill_outline w min_x min_y min_z max_x max_y max_z block
  | .replace => fill_basic w min_x min_y min_z max_x max_y max_z block
  | .destroy => fill_basic w min_x min_y min_z max_x max_y max_z block
  | .keep => fill_keep w min_x min_y min_z max_x max_y max_z block

/-! ## api.py — WorldEditor.execute -/

/-- `WorldEditor.execute` for one parsed command: resolve against the editor
origin, then write (setblock) or fill by mode. Returns the updated world and
the blocks-modified count. -/
def executeCmd (w : World) (origin : Int × Int × Int) : CommandAST → World × Nat
  | .setblock cmd =>
      let p := cmd.position.resolve origin
      (setBlockAt w p (blockspec_to_amulet cmd.block), 1)
  | .fill cmd =>
      let p1 := cmd.pos1.resolve origin
      let p2 := cmd.pos2.resolve origin
      fill_region w p1.1 p1.2.1 p1.2.2 p2.1 p2.2.1 p2.2.2
        (blockspec_to_amulet cmd.block) cmd.mode

/-! ## converter.py — bounds analysis -/

/-- `_extract_positions_from_command`: the position of a setblock, both
endpoints of a fill, in source order. -/
def extractPositions : CommandAST → List Position
  | .setblock cmd => [cmd.position]
  | .fill cmd => [cmd.pos1, cmd.pos2]

/-- `min(acc, v)` against a `float('inf')` sentinel. -/
def updateMin : Option Int → Int → Option Int
  | none, v => some v
  | some m, v => some (min m v)

/-- `max(acc, v)` against a `float('-inf')` sentinel. -/
def updateMax : Option Int → Int → Option Int
  | none, v => some v
  | some m, v => some (max m v)

/-- The six min/max accumulators of `_compute_coordinate_bounds`
(`none` = still at the infinite sentinel). -/
structure Bounds where
  min_x : Option Int
  min_y : Option Int
  min_z : Option Int
  max_x : Option Int
  max_y : Option Int
  max_z : Option Int
deriving Repr, DecidableEq

/-- The per-position update of `_compute_coordinate_bounds`: only absolute
coordinates feed their axis. -/
def boundsStep (b : Bounds) (pos : Position) : Bounds :=
  let b1 := if pos.x.relative then b else
    { b with min_x := updateMin b.min_x pos.x.value,
             max_x := updateMax b.max_x pos.x.value }
  let b2 := if pos.y.relative then b1 else
    { b1 with min_y := updateMin b1.min_y pos.y.value,
              max_y := updateMax b1.max_y pos.y.value }
  if pos.z.relative then b2 else
    { b2 with min_z := updateMin b2.min_z pos.z.value,
              max_z := updateMax b2.max_z pos.z.value }

/-- `_compute_coordinate_bounds`: fold over every position of every parsed
command, skipping `None` entries. -/
def computeCoordinateBounds (cmds : Script) : Bounds :=
  cmds.foldl (fun b item =>
    match item with
    | none => b
    | some ast => (extractPositions ast).foldl boundsStep b)
    ⟨none, none, none, none, none, none⟩

/-- `BoundingBox` from `converter.py`. -/
structure BoundingBox where
  min_x : Int
  min_y : Int
  min_z : Int
  max_x : Int
  max_y : Int
  max_z : Int
deriving Repr, DecidableEq

/-- `BoundingBox.width`: `max_x - min_x + 1` (inclusive). -/
def BoundingBox.width (b : BoundingBox) : Int := b.max_x - b.min_x + 1

/-- `BoundingBox.height`: `max_y - min_y + 1` (inclusive). -/
def BoundingBox.height (b : BoundingBox) : Int := b.max_y - b.min_y + 1

/-- `BoundingBox.depth`: `max_z - min_z + 1` (inclusive). -/
def BoundingBox.depth (b : BoundingBox) : Int := b.max_z - b.min_z + 1

/-- `ScriptConverter.analyze_script`: compute the bounds; if `min_x` stayed
infinite return the all-zero sentinel box, otherwise convert every bound with
`int(...)` — which raises `OverflowError` when that bound is still infinite
(possible when an axis saw no absolute coordinate while x did). -/
def analyze_script (script : Script) : Except PyErr BoundingBox :=
  let b := computeCoordinateBounds script
  match b.min_x with
  | none => .ok ⟨0, 0, 0, 0, 0, 0⟩
  | some mx =>
      match b.min_y, b.min_z, b.max_x, b.max_y, b.max_z with
      | some my, some mz, some Mx, some My, some Mz => .ok ⟨mx, my, mz, Mx, My, Mz⟩
      | _, _, _, _, _ => .error .overflowError

/-! ## converter.py — absolute→relative string conversion -/

/-- Decimal digits of a natural number, most significant first (the digits
Python's `int` formatting produces). -/
def natDigits (n : Nat) : List Char :=
  if _h : n < 10 then [Nat.digitChar n]
  else natDigits (n / 10) ++ [Nat.digitChar (n % 10)]
decreasing_by exact Nat.div_lt_self (by omega) (by omega)

/-- `natDigits` is never empty. -/
theorem natDigits_ne_nil (n : Nat) : natDigits n ≠ [] := by
  rw [natDigits]
  split
  · simp
  · simp

/-- Python `f"{n:+d}"`: an explicit sign followed by the decimal digits. -/
def pyFormatPlusD (n : Int) : List Char :=
  if n < 0 then '-' :: natDigits (-n).toNat else '+' :: natDigits n.toNat

/-- Python `str.replace("+-", "-")`: replace every non-overlapping occurrence
of `+-`, scanning left to right. -/
def replacePM : List Char → List Char
  | [] => []
  | [c] => [c]
  | c1 :: c2 :: cs =>
      if c1 = '+' ∧ c2 = '-' then '-' :: replacePM cs
      else c1 :: replacePM (c2 :: cs)

/-- `ScriptConverter._convert_coord`: `~` for a zero offset, otherwise
`f"~{offset:+d}".replace("+-", "-")`; relative coordinates keep their own
offset, absolute ones use `value - base`. -/
def convert_coord (c : Coordinate) (base : Int) : String :=
  if c.relative then
    if c.value = 0 then "~"
    else ⟨replacePM ('~' :: pyFormatPlusD c.value)⟩
  else
    let offset := c.value - base
    if offset = 0 then "~"
    else ⟨replacePM ('~' :: pyFormatPlusD offset)⟩

/-- `ScriptConverter._convert_position`: the three coordinate strings joined
by single spaces. -/
def convert_position (p : Position) (base : Int × Int × Int) : String :=
  convert_coord p.x base.1 ++ " " ++ convert_coord p.y base.2.1 ++ " " ++
    convert_coord p.z base.2.2

/-- Python `",".join(strs)`. -/
def joinComma : List String → String
  | [] => ""
  | [s] => s
  | s :: rest => s ++ "," ++ joinComma rest

/-- Python `str(n)` for an integer: an optional minus sign and the decimal
digits. -/
def intStr (n : Int) : String :=
  if n < 0 then ⟨'-' :: natDigits (-n).toNat⟩ else ⟨natDigits n.toNat⟩

/-- `str(value)` for a block-state value (`str(True) = "True"`). -/
def pyStrStateValue : StateValue → String
  | .str s => s
  | .int n => intStr n
  | .bool b => if b then "True" else "False"

/-- `ScriptConverter._format_block`: `full_id`, plus `[k=v,...]` when the
states dict is non-empty (an empty dict is falsy in Python). -/
def format_block (b : BlockSpec) : String :=
  match b.states with
  | some (p :: ps) =>
      b.full_id ++ "[" ++
        joinComma (((p :: ps)).map (fun kv => kv.1 ++ "=" ++ pyStrStateValue kv.2)) ++ "]"
  | _ => b.full_id

/-- The mode keyword appended by `_convert_command` for non-replace fills. -/
def modeString : FillMode → String
  | .replace => "replace"
  | .destroy => "destroy"
  | .hollow => "hollow"
  | .keep => "keep"
  | .outline => "outline"

/-- `ScriptConverter._convert_command`: rebuild the command line with
relative coordinates; the mode is appended only when it is not `replace`. -/
def convert_command (ast : CommandAST) (base : Int × Int × Int) : String :=
  match ast with
  | .setblock cmd =>
      "/setblock " ++ convert_position cmd.position base ++ " " ++
        format_block cmd.block
  | .fill cmd =>
      let head := "/fill " ++ convert_position cmd.pos1 base ++ " " ++
        convert_position cmd.pos2 base ++ " " ++ format_block cmd.block
      if cmd.mode = .replace then head else head ++ " " ++ modeString cmd.mode

/-! ## placer.py — structure analysis -/

/-- `SliceInfo`. -/
structure SliceInfo where
  y : Int
  min_x : Int
  max_x : Int
  min_z : Int
  max_z : Int
  block_count : Nat
deriving Repr, DecidableEq

/-- `Footprint`. -/
structure Footprint where
  min_x : Int
  max_x : Int
  min_z : Int
  max_z : Int
  y_level : Int
  block_count : Nat
deriving Repr, DecidableEq

/-- The x/z min/max accumulators plus block count shared by the slice and
footprint loops (`none` = infinite sentinel). -/
structure SliceState where
  min_x : Option Int
  max_x : Option Int
  min_z : Option Int
  max_z : Option Int
  block_count : Nat
deriving Repr, DecidableEq

/-- The loop body of `StructureAnalyzer.get_slice_at_y` for one command. -/
def sliceStep (y : Int) (st : SliceState) : CommandAST → SliceState
  | .setblock cmd =>
      let pos := cmd.position
      if pos.y.relative = false ∧ pos.y.value = y then
        let st1 := if pos.x.relative then st else
          { st with min_x := updateMin st.min_x pos.x.value,
                    max_x := updateMax st.max_x pos.x.value }
        let st2 := if pos.z.relative then st1 else
          { st1 with min_z := updateMin st1.min_z pos.z.value,
                     max_z := updateMax st1.max_z pos.z.value }
        { st2 with block_count := st2.block_count + 1 }
      else st
  | .fill cmd =>
      if cmd.pos1.y.relative = false ∧ cmd.pos2.y.relative = false then
        let y1 := cmd.pos1.y.value
        let y2 := cmd.pos2.y.value
        if min y1 y2 ≤ y ∧ y ≤ max y1 y2 then
          let st1 := if cmd.pos1.x.relative = false ∧ cmd.pos2.x.relative = false then
            { st with
              min_x := updateMin (updateMin st.min_x cmd.pos1.x.value) cmd.pos2.x.value,
              max_x := updateMax (updateMax st.max_x cmd.pos1.x.value) cmd.pos2.x.value }
            else st
          let st2 := if cmd.pos1.z.relative = false ∧ cmd.pos2.z.relative = false then
            { st1 with
              min_z := updateMin (updateMin st1.min_z cmd.pos1.z.value) cmd.pos2.z.value,
              max_z := updateMax (updateMax st1.max_z cmd.pos1.z.value) cmd.pos2.z.value }
            else st1
          let x_range := (cmd.pos2.x.value - cmd.pos1.x.value).natAbs + 1
          let z_range := (cmd.pos2.z.value - cmd.pos1.z.value).natAbs + 1
          { st2 with block_count := st2.block_count + x_range * z_range }
        else st
      else st

/-- `StructureAnalyzer.get_slice_at_y`: fold the loop over the parsed
commands; `int(...)` of a still-infinite x/z bound raises `OverflowError`. -/
def get_slice_at_y (script : Script) (y : Int) : Except PyErr SliceInfo :=
  let cmds := script.filterMap id
  let st := cmds.foldl (sliceStep y) ⟨none, none, none, none, 0⟩
  match st.min_x with
  | none => .ok ⟨y, 0, 0, 0, 0, 0⟩
  | some mx =>
      match st.max_x, st.min_z, st.max_z with
      | some Mx, some mz, some Mz => .ok ⟨y, mx, Mx, mz, Mz, st.block_count⟩
      | _, _, _ => .error .overflowError

/-- The loop body of `StructureAnalyzer._get_footprint_at_y` for one command
(textually identical to the slice loop in the source). -/
def footprintStep (y : Int) (st : SliceState) : CommandAST → SliceState
  | .setblock cmd =>
      let pos := cmd.position
      if pos.y.relative = false ∧ pos.y.value = y then
        let st1 := if pos.x.relative then st else
          { st with min_x := updateMin st.min_x pos.x.value,
                    max_x := updateMax st.max_x pos.x.value }
        let st2 := if pos.z.relative then st1 else
          { st1 with min_z := updateMin st1.min_z pos.z.value,
                     max_z := updateMax st1.max_z pos.z.value }
        { st2 with block_count := st2.block_count + 1 }
      else st
  | .fill cmd =>
      if cmd.pos1.y.relative = false ∧ cmd.pos2.y.relative = false then
        let y1 := cmd.pos1.y.value
        let y2 := cmd.pos2.y.value
        if min y1 y2 ≤ y ∧ y ≤ max y1 y2 then
          let st1 := if cmd.pos1.x.relative = false ∧ cmd.pos2.x.relative = false then
            { st with
              min_x := updateMin (updateMin st.min_x cmd.pos1.x.value) cmd.pos2.x.value,
              max_x := updateMax (updateMax st.max_x cmd.pos1.x.value) cmd.pos2.x.value }
            else st
          let st2 := if cmd.pos1.z.relative = false ∧ cmd.pos2.z.relative = false then
            { st1 with
              min_z := updateMin (updateMin st1.min_z cmd.pos1.z.value) cmd.pos2.z.value,
              max_z := updateMax (updateMax st1.max_z cmd.pos1.z.value) cmd.pos2.z.value }
            else st1
          let x_range := (cmd.pos2.x.value - cmd.pos1.x.value).natAbs + 1
          let z_range := (cmd.pos2.z.value - cmd.pos1.z.value).natAbs + 1
          { st2 with block_count := st2.block_count + x_range * z_range }
        else st
      else st

/-- `StructureAnalyzer._get_footprint_at_y`. -/
def footprint_at_y (cmds : List CommandAST) (y : Int) : Except PyErr Footprint :=
  let st := cmds.foldl (footprintStep y) ⟨none, none, none, none, 0⟩
  match st.min_x with
  | none => .ok ⟨0, 0, 0, 0, y, 0⟩
  | some mx =>
      match st.max_x, st.min_z, st.max_z with
      | some Mx, some mz, some Mz => .ok ⟨mx, Mx, mz, Mz, y, st.block_count⟩
      | _, _, _ => .error .overflowError

/-- The `min_y` scan of `StructureAnalyzer.get_base_footprint` over absolute
y-coordinates of every extracted position. -/
def minYAbs (cmds : List CommandAST) : Option Int :=
  cmds.foldl (fun acc cmd =>
    (extractPositions cmd).foldl (fun a pos =>
      if pos.y.relative then a else updateMin a pos.y.value) acc) none

/-- `StructureAnalyzer.get_base_footprint`: zero footprint for an empty or
absolute-y-free script, otherwise the footprint at the minimum absolute y. -/
def get_base_footprint (script : Script) : Except PyErr Footprint :=
  let cmds := script.filterMap id
  if cmds.isEmpty then .ok ⟨0, 0, 0, 0, 0, 0⟩
  else
    match minYAbs cmds with
    | none => .ok ⟨0, 0, 0, 0, 0, 0⟩
    | some my => footprint_at_y cmds my

/-! ## placer.py — placement -/

/-- Python `str.lower()` on one character (ASCII range, which covers every
enum value involved). -/
def pyLowerChar (c : Char) : Char :=
  if c.isUpper then Char.ofNat (c.toNat + 32) else c

/-- Python `str.lower()`. -/
def pyLower (s : String) : String := ⟨s.data.map pyLowerChar⟩

/-- A value passed as the anchor argument that is not a string: one of the
three `Anchor` enumerators, or (`other`) any unrecognized Python object. -/
inductive AnchorVal where
  | corner
  | center
  | base_center
  | other
deriving Repr, DecidableEq

/-- The anchor argument of `place_at` / `place_grid`: either a non-string
value or a string (converted through `Anchor(anchor.lower())`). -/
inductive AnchorArg where
  | val (a : AnchorVal)
  | str (s : String)
deriving Repr, DecidableEq

/-- `Anchor(s)` lookup by enum value. -/
def anchorOfString (s : String) : Option AnchorVal :=
  if s = "corner" then some .corner
  else if s = "center" then some .center
  else if s = "base-center" then some .base_center
  else none

/-- `if isinstance(anchor, str): anchor = Anchor(anchor.lower())` — an
unrecognized string raises `ValueError` from the enum constructor. -/
def anchorFromArg : AnchorArg → Except PyErr AnchorVal
  | .val a => .ok a
  | .str s =>
      match anchorOfString (pyLower s) with
      | some a => .ok a
      | none => .error .valueError

/-- A value passed as the direction argument that is not a string. -/
inductive DirectionVal where
  | north
  | south
  | east
  | west
  | up
  | down
  | other
deriving Repr, DecidableEq

/-- The direction argument of `place_adjacent`. -/
inductive DirectionArg where
  | val (d : DirectionVal)
  | str (s : String)
deriving Repr, DecidableEq

/-- `Direction(s)` lookup by enum value. -/
def directionOfString (s : String) : Option DirectionVal :=
  if s = "north" then some .north
  else if s = "south" then some .south
  else if s = "east" then some .east
  else if s = "west" then some .west
  else if s = "up" then some .up
  else if s = "down" then some .down
  else none

/-- `if isinstance(direction, str): direction = Direction(direction.lower())`. -/
def directionFromArg : DirectionArg → Except PyErr DirectionVal
  | .val d => .ok d
  | .str s =>
      match directionOfString (pyLower s) with
      | some d => .ok d
      | none => .error .valueError

/-- `PlacementResult`. -/
structure PlacementResult where
  blocks_placed : Nat
  bounding_box : BoundingBox
  origin_used : Int × Int × Int
deriving Repr, DecidableEq

/-- `StructurePlacer._calculate_origin_from_anchor`: Python `//` is floor
division (`Int.fdiv`); an unrecognized value falls through every branch and
raises `PlacementError`. -/
def calculate_origin_from_anchor (position : Int × Int × Int)
    (bbox : BoundingBox) : AnchorVal → Except PyErr (Int × Int × Int)
  | .corner => .ok position
  | .center =>
      .ok (position.1 - bbox.width.fdiv 2,
           position.2.1 - bbox.height.fdiv 2,
           position.2.2 - bbox.depth.fdiv 2)
  | .base_center =>
      .ok (position.1 - bbox.width.fdiv 2,
           position.2.1,
           position.2.2 - bbox.depth.fdiv 2)
  | .other => .error .placementError

/-- `StructurePlacer._calculate_adjacent_origin`. -/
def calculate_adjacent_origin (relative_to : Int × Int × Int)
    (bbox ref_bbox : BoundingBox) (gap : Int) :
    DirectionVal → Except PyErr (Int × Int × Int)
  | .east => .ok (relative_to.1 + ref_bbox.width + gap, relative_to.2.1, relative_to.2.2)
  | .west => .ok (relative_to.1 - bbox.width - gap, relative_to.2.1, relative_to.2.2)
  | .south => .ok (relative_to.1, relative_to.2.1, relative_to.2.2 + ref_bbox.depth + gap)
  | .north => .ok (relative_to.1, relative_to.2.1, relative_to.2.2 - bbox.depth - gap)
  | .up => .ok (relative_to.1, relative_to.2.1 + ref_bbox.height + gap, relative_to.2.2)
  | .down => .ok (relative_to.1, relative_to.2.1 - bbox.height - gap, relative_to.2.2)
  | .other => .error .placementError

/-- `StructurePlacer._execute_script`: execute every parseable line against
the origin, accumulating the world state and the blocks-placed total. -/
def execute_script (w : World) (script : Script) (origin : Int × Int × Int) :
    World × Nat :=
  script.foldl (fun acc item =>
    match item with
    | none => acc
    | some cmd =>
        let r := executeCmd acc.1 origin cmd
        (r.1, acc.2 + r.2)) (w, 0)

/-- `StructurePlacer.place_at`: bounding box first, then anchor conversion,
then origin computation, then script execution. -/
def place_at (w : World) (script : Script) (position : Int × Int × Int)
    (anchor : AnchorArg) : World × Except PyErr PlacementResult :=
  match analyze_script script with
  | .error e => (w, .error e)
  | .ok bbox =>
      match anchorFromArg anchor with
      | .error e => (w, .error e)
      | .ok a =>
          match calculate_origin_from_anchor position bbox a with
          | .error e => (w, .error e)
          | .ok origin =>
              let r := execute_script w script origin
              (r.1, .ok ⟨r.2, bbox, origin⟩)

/-- `StructurePlacer.place_adjacent`: bounding box, direction conversion,
reference bounding box (the zero box `BoundingBox(0,0,0,0,0,0)` when no
reference script is given), adjacent-origin computation, execution. -/
def place_adjacent (w : World) (script : Script) (relative_to : Int × Int × Int)
    (direction : DirectionArg) (gap : Int) (reference_script : Option Script) :
    World × Except PyErr PlacementResult :=
  match analyze_script script with
  | .error e => (w, .error e)
  | .ok bbox =>
      match directionFromArg direction with
      | .error e => (w, .error e)
      | .ok d =>
          match (match reference_script with
                 | some ref => analyze_script ref
                 | none => .ok ⟨0, 0, 0, 0, 0, 0⟩) with
          | .error e => (w, .error e)
          | .ok ref_bbox =>
              match calculate_adjacent_origin relative_to bbox ref_bbox gap d with
              | .error e => (w, .error e)
              | .ok origin =>
                  let r := execute_script w script origin
                  (r.1, .ok ⟨r.2, bbox, origin⟩)

/-- Python `range(n)` over an integer argument (empty when `n ≤ 0`). -/
def gridIndices (n : Int) : List Int :=
  (List.range n.toNat).map (fun (i : Nat) => (i : Int))

/-- `StructurePlacer.place_grid`: row-major `(row, col)` cells; each cell
calls `place_at` with the converted anchor; an exception aborts the loop. -/
def place_grid (w : World) (script : Script) (start : Int × Int × Int)
    (grid_size : Int × Int) (spacing : Int × Int) (anchor : AnchorArg) :
    World × Except PyErr (List PlacementResult) :=
  match analyze_script script with
  | .error e => (w, .error e)
  | .ok bbox =>
      match anchorFromArg anchor with
      | .error e => (w, .error e)
      | .ok a =>
          let cols := grid_size.1
          let rows := grid_size.2
          ((gridIndices rows).flatMap (fun row =>
              (gridIndices cols).map (fun col => (row, col)))).foldl
            (fun acc rc =>
              match acc.2 with
              | .error _ => acc
              | .ok results =>
                  let position :=
                    (start.1 + rc.2 * (bbox.width + spacing.1),
                     start.2.1,
                     start.2.2 + rc.1 * (bbox.depth + spacing.2))
                  let r := place_at acc.1 script position (.val a)
                  match r.2 with
                  | .error e => (r.1, .error e)
                  | .ok res => (r.1, .ok (results ++ [res])))
            (w, .ok [])

/-! ## Command parser

Modelled from the spec: the Lark grammar file `grammar.lark` read by
`parser/parser.py` is not under `src/`, so the token grammar of §4.1
(coordinates `signed-int | ~ | ~signed-int`, `position := coord coord coord`,
`block_id := [namespace ':'] identifier`, optional `[k=v,...]` states,
optional fill-mode keyword, leading `/` stripped) is modelled here directly.
Whitespace-separated tokenization stands in for the Lark LALR lexer. -/

/-- Split a character list on a separator, dropping empty pieces (a lexer
never produces empty tokens). -/
def splitGo (sep : Char) : List Char → List Char → List (List Char)
  | [], cur => if cur.isEmpty then [] else [cur.reverse]
  | c :: cs, cur =>
      if c == sep then
        (if cur.isEmpty then splitGo sep cs [] else cur.reverse :: splitGo sep cs [])
      else splitGo sep cs (c :: cur)

/-- Whitespace tokenization of a command line. -/
def tokenize (l : List Char) : List (List Char) := splitGo ' ' l []

/-- Read a digit string as a natural number. -/
def digitsToNat (l : List Char) : Nat :=
  l.foldl (fun a c => a * 10 + (c.toNat - 48)) 0

/-- Parse a non-empty all-digit token. -/
def parseNatTok (l : List Char) : Option Nat :=
  if l ≠ [] ∧ l.all Char.isDigit then some (digitsToNat l) else none

/-- Parse a signed-integer token (optional single leading sign). -/
def parseIntTok : List Char → Option Int
  | [] => none
  | c :: rest =>
      if c = '-' then (parseNatTok rest).map (fun (n : Nat) => -(n : Int))
      else if c = '+' then (parseNatTok rest).map (fun (n : Nat) => (n : Int))
      else (parseNatTok (c :: rest)).map (fun (n : Nat) => (n : Int))

/-- Parse a coordinate token: `~` alone is a zero relative offset, `~int` a
relative offset, a bare signed integer an absolute coordinate. -/
def parseCoordTok : List Char → Option Coordinate
  | [] => none
  | c :: rest =>
      if c = '~' then
        if rest.isEmpty then some ⟨0, true⟩
        else (parseIntTok rest).map (fun n => ⟨n, true⟩)
      else (parseIntTok (c :: rest)).map (fun n => ⟨n, false⟩)

/-- State-value coercion: `true`/`false` become booleans, a signed digit
string an integer, anything else stays a string. -/
def parseStateValue (l : List Char) : StateValue :=
  if l = "true".data then .bool true
  else if l = "false".data then .bool false
  else
    match parseIntTok l with
    | some n => .int n
    | none => .str ⟨l⟩

/-- Parse one `key=value` pair. -/
def parseStatePair (l : List Char) : Option (String × StateValue) :=
  match splitGo '=' l [] with
  | [k, v] => some (⟨k⟩, parseStateValue v)
  | _ => none

/-- Parse a block token: `[namespace ':'] identifier` with optional
`[k=v(,k=v)*]` states. -/
def parseBlockTok (l : List Char) : Option BlockSpec :=
  let idPart := l.takeWhile (fun c => !(c == '['))
  let statesPart := l.dropWhile (fun c => !(c == '['))
  let nsPart := idPart.takeWhile (fun c => !(c == ':'))
  let nsid : List Char × List Char :=
    match idPart.dropWhile (fun c => !(c == ':')) with
    | ':' :: r => (nsPart, r)
    | _ => ("minecraft".data, idPart)
  if nsid.2 = [] then none
  else
    match statesPart with
    | [] => some ⟨⟨nsid.1⟩, ⟨nsid.2⟩, none⟩
    | '[' :: r =>
        if r.getLast? = some ']' then
          match (splitGo ',' r.dropLast []).mapM parseStatePair with
          | some (p :: ps) => some ⟨⟨nsid.1⟩, ⟨nsid.2⟩, some (p :: ps)⟩
          | _ => none
        else none
    | _ => none

/-- Parse a fill-mode keyword token. -/
def parseModeTok (l : List Char) : Option FillMode :=
  if l = "replace".data then some .replace
  else if l = "destroy".data then some .destroy
  else if l = "hollow".data then some .hollow
  else if l = "keep".data then some .keep
  else if l = "outline".data then some .outline
  else none

/-- Parse a tokenized command. -/
def parseCommandTokens : List (List Char) → Option CommandAST
  | verb :: rest =>
      if verb = "setblock".data then
        match rest with
        | [c1, c2, c3, b] => do
            let p1 ← parseCoordTok c1
            let p2 ← parseCoordTok c2
            let p3 ← parseCoordTok c3
            let blk ← parseBlockTok b
            some (.setblock ⟨⟨p1, p2, p3⟩, blk⟩)
        | _ => none
      else if verb = "fill".data then
        match rest with
        | [c1, c2, c3, c4, c5, c6, b] => do
            let p1 ← parseCoordTok c1
            let p2 ← parseCoordTok c2
            let p3 ← parseCoordTok c3
            let q1 ← parseCoordTok c4
            let q2 ← parseCoordTok c5
            let q3 ← parseCoordTok c6
            let blk ← parseBlockTok b
            some (.fill ⟨⟨p1, p2, p3⟩, ⟨q1, q2, q3⟩, blk, .replace⟩)
        | [c1, c2, c3, c4, c5, c6, b, m] => do
            let p1 ← parseCoordTok c1
            let p2 ← parseCoordTok c2
            let p3 ← parseCoordTok c3
            let q1 ← parseCoordTok c4
            let q2 ← parseCoordTok c5
            let q3 ← parseCoordTok c6
            let blk ← parseBlockTok b
            let mode ← parseModeTok m
            some (.fill ⟨⟨p1, p2, p3⟩, ⟨q1, q2, q3⟩, blk, mode⟩)
        | _ => none
      else none
  | [] => none

/-- `CommandParser.parse`: strip leading slashes (`lstrip('/')`), tokenize,
parse; `none` models `CommandSyntaxError`. -/
def parseCommand (s : String) : Option CommandAST :=
  parseCommandTokens (tokenize (s.data.dropWhile (fun c => c == '/')))

/-! ## Supporting lemmas -/

/-- The everywhere-air world, used for concrete evaluations. -/
def airWorld : World := fun _ => airBlock

instance {ε α : Type} [DecidableEq ε] [DecidableEq α] :
    DecidableEq (Except ε α) := fun a b =>
  match a, b with
  | .ok x, .ok y =>
      if h : x = y then isTrue (by subst h; rfl)
      else isFalse (fun hc => h (Except.ok.inj hc))
  | .error x, .error y =>
      if h : x = y then isTrue (by subst h; rfl)
      else isFalse (fun hc => h (Except.error.inj hc))
  | .ok _, .error _ => isFalse (fun hc => Except.noConfusion hc)
  | .error _, .ok _ => isFalse (fun hc => Except.noConfusion hc)

theorem rangeList_nil {lo hi : Int} (h : hi < lo) : rangeList lo hi = [] := by
  unfold rangeList
  have : (hi + 1 - lo).toNat = 0 := by omega
  simp [this]

theorem rangeList_length (lo hi : Int) :
    (rangeList lo hi).length = (hi + 1 - lo).toNat := by
  unfold rangeList
  rw [List.length_map, List.length_range]

theorem rangeList_self (a : Int) : rangeList a a = [a] := by
  unfold rangeList
  have h1 : (a + 1 - a).toNat = 1 := by omega
  rw [h1, show List.range 1 = [0] from rfl, List.map_cons, List.map_nil]
  simp

theorem rangeList_cons {lo hi : Int} (h : lo ≤ hi) :
    rangeList lo hi = lo :: rangeList (lo + 1) hi := by
  unfold rangeList
  have h1 : (hi + 1 - lo).toNat = (hi + 1 - (lo + 1)).toNat + 1 := by omega
  rw [h1, List.range_succ_eq_map]
  simp only [List.map_cons, List.map_map, Nat.cast_zero, add_zero]
  refine List.cons_eq_cons.mpr ⟨rfl, ?_⟩
  apply List.map_congr_left
  intro a _
  simp only [Function.comp_apply, Nat.succ_eq_add_one]
  push_cast
  ring

theorem rangeList_concat {lo hi : Int} (h : lo ≤ hi) :
    rangeList lo hi = rangeList lo (hi - 1) ++ [hi] := by
  unfold rangeList
  have h1 : (hi + 1 - lo).toNat = (hi - 1 + 1 - lo).toNat + 1 := by omega
  rw [h1, List.range_succ, List.map_append]
  simp only [List.map_cons, List.map_nil]
  congr 2
  omega

theorem mem_rangeList {lo hi t : Int} :
    t ∈ rangeList lo hi ↔ lo ≤ t ∧ t ≤ hi := by
  unfold rangeList
  simp only [List.mem_map, List.mem_range]
  constructor
  · rintro ⟨i, hi1, rfl⟩
    constructor
    · omega
    · omega
  · rintro ⟨h1, h2⟩
    exact ⟨(t - lo).toNat, by omega, by omega⟩

/-- The second component of a pair-accumulating fold whose step adds a
per-element amount to the counter. -/
theorem foldl_pair_snd {γ : Type} (F : World × Nat → γ → World × Nat)
    (m : γ → Nat) (h : ∀ acc c, (F acc c).2 = acc.2 + m c) :
    ∀ (l : List γ) (acc : World × Nat),
      (l.foldl F acc).2 = acc.2 + (l.map m).sum := by
  intro l
  induction l with
  | nil => intro acc; simp
  | cons c t ih =>
      intro acc
      simp only [List.foldl_cons, List.map_cons, List.sum_cons]
      rw [ih, h]
      omega

theorem sum_map_const {α : Type} (l : List α) (c : Nat) :
    (l.map (fun _ => c)).sum = l.length * c := by
  induction l with
  | nil => simp
  | cons a t ih => simp [ih]; ring

/-- Count of endpoint hits over an inclusive integer range. -/
theorem sum_ite_endpoint {lo hi : Int} (h : lo ≤ hi) :
    ((rangeList lo hi).map (fun t => if t = lo ∨ t = hi then 1 else 0)).sum
      = if lo = hi then 1 else 2 := by
  rcases eq_or_lt_of_le h with heq | hlt
  · subst heq
    simp [rangeList_self]
  · rw [if_neg (by omega)]
    rw [rangeList_cons h, rangeList_concat (by omega)]
    simp only [List.map_cons, List.map_append, List.sum_cons, List.sum_append,
      List.map_nil, List.sum_nil]
    have hmid : ((rangeList (lo + 1) (hi - 1)).map
        (fun t => if t = lo ∨ t = hi then 1 else 0)).sum = 0 := by
      apply List.sum_eq_zero
      intro x hx
      simp only [List.mem_map] at hx
      obtain ⟨t, ht, rfl⟩ := hx
      rw [mem_rangeList] at ht
      rw [if_neg (by omega)]
    rw [hmid]
    simp

/-- Sum of a two-valued map in terms of the hit count. -/
theorem sum_map_ite {α : Type} (p : α → Prop) [DecidablePred p]
    (A C : Nat) (l : List α) :
    (l.map (fun t => if p t then A else C)).sum =
      (l.map (fun t => if p t then 1 else 0)).sum * A +
        (l.length - (l.map (fun t => if p t then 1 else 0)).sum) * C := by
  induction l with
  | nil => simp
  | cons a t ih =>
      have hle : (t.map (fun t => if p t then 1 else 0)).sum ≤ t.length := by
        clear ih
        induction t with
        | nil => simp
        | cons b s ihs =>
            simp only [List.map_cons, List.sum_cons, List.length_cons]
            by_cases hb : p b <;> simp [hb] <;> omega
      simp only [List.map_cons, List.sum_cons, List.length_cons]
      set s := (t.map (fun t => if p t then 1 else 0)).sum with hs
      by_cases ha : p a
      · rw [if_pos ha, if_pos ha, ih]
        have h2 : t.length + 1 - (1 + s) = t.length - s := by omega
        rw [h2]
        ring
      · rw [if_neg ha, if_neg ha, ih]
        have h2 : t.length + 1 - (0 + s) = (t.length - s) + 1 := by omega
        rw [h2]
        ring

theorem onBoundary_iff (mx my mz Mx My Mz x y z : Int) :
    onBoundary mx my mz Mx My Mz x y z = true ↔
      x = mx ∨ x = Mx ∨ y = my ∨ y = My ∨ z = mz ∨ z = Mz := by
  simp only [onBoundary, Bool.or_eq_true, beq_iff_eq]
  tauto

/-- The count returned by `_fill_hollow` is the triple sum of the boundary
indicator over the box. -/
theorem fill_hollow_snd (w : World) (blk : Block) (mx my mz Mx My Mz : Int) :
    (fill_hollow w mx my mz Mx My Mz blk).2 =
      ((rangeList mx Mx).map (fun x =>
        ((rangeList my My).map (fun y =>
          ((rangeList mz Mz).map (fun z =>
            if onBoundary mx my mz Mx My Mz x y z then 1 else 0)).sum)).sum)).sum := by
  unfold fill_hollow
  rw [foldl_pair_snd _ (fun x =>
        ((rangeList my My).map (fun y =>
          ((rangeList mz Mz).map (fun z =>
            if onBoundary mx my mz Mx My Mz x y z then 1 else 0)).sum)).sum)]
  · simp
  · intro acc x
    rw [foldl_pair_snd _ (fun y =>
          ((rangeList mz Mz).map (fun z =>
            if onBoundary mx my mz Mx My Mz x y z then 1 else 0)).sum)]
    intro acc2 y
    rw [foldl_pair_snd _ (fun z =>
          if onBoundary mx my mz Mx My Mz x y z then 1 else 0)]
    intro acc3 z
    by_cases hb : onBoundary mx my mz Mx My Mz x y z
    · simp [hb]
    · simp [hb]

/-- Closed form for the hollow-fill count on a normalized box. -/
theorem fill_hollow_count (w : World) (blk : Block) (mx my mz Mx My Mz : Int)
    (hx : mx ≤ Mx) (hy : my ≤ My) (hz : mz ≤ Mz) :
    (fill_hollow w mx my mz Mx My Mz blk).2 =
      (if mx = Mx then 1 else 2) * ((My + 1 - my).toNat * (Mz + 1 - mz).toNat)
      + ((Mx + 1 - mx).toNat - (if mx = Mx then 1 else 2)) *
          ((if my = My then 1 else 2) * (Mz + 1 - mz).toNat
            + ((My + 1 - my).toNat - (if my = My then 1 else 2)) *
              (if mz = Mz then 1 else 2)) := by
  rw [fill_hollow_snd]
  have hinner : ∀ x y,
      ((rangeList mz Mz).map (fun z =>
        if onBoundary mx my mz Mx My Mz x y z then 1 else 0)).sum =
      if x = mx ∨ x = Mx ∨ y = my ∨ y = My then (Mz + 1 - mz).toNat
      else (if mz = Mz then 1 else 2) := by
    intro x y
    by_cases hxy : x = mx ∨ x = Mx ∨ y = my ∨ y = My
    · rw [if_pos hxy]
      have hconst : ∀ z ∈ rangeList mz Mz,
          (if onBoundary mx my mz Mx My Mz x y z then (1 : Nat) else 0) = 1 := by
        intro z _
        have hb : onBoundary mx my mz Mx My Mz x y z = true := by
          rw [onBoundary_iff]; tauto
        simp [hb]
      rw [List.map_congr_left hconst, sum_map_const, rangeList_length, mul_one]
    · rw [if_neg hxy]
      push_neg at hxy
      have hzz : ∀ z ∈ rangeList mz Mz,
          (if onBoundary mx my mz Mx My Mz x y z then (1 : Nat) else 0) =
            if z = mz ∨ z = Mz then 1 else 0 := by
        intro z _
        by_cases hzc : z = mz ∨ z = Mz
        · have hb : onBoundary mx my mz Mx My Mz x y z = true := by
            rw [onBoundary_iff]; tauto
          simp [hb, hzc]
        · have hb : onBoundary mx my mz Mx My Mz x y z = false := by
            rw [Bool.eq_false_iff, Ne, onBoundary_iff]
            tauto
          simp [hb, hzc]
      rw [List.map_congr_left hzz, sum_ite_endpoint hz]
  have hrw1 : ((rangeList mx Mx).map (fun x =>
        ((rangeList my My).map (fun y =>
          ((rangeList mz Mz).map (fun z =>
            if onBoundary mx my mz Mx My Mz x y z then 1 else 0)).sum)).sum)).sum
      = ((rangeList mx Mx).map (fun x =>
        ((rangeList my My).map (fun y =>
          if x = mx ∨ x = Mx ∨ y = my ∨ y = My then (Mz + 1 - mz).toNat
          else (if mz = Mz then 1 else 2))).sum)).sum := by
    apply congrArg
    apply List.map_congr_left
    intro x _
    apply congrArg
    apply List.map_congr_left
    intro y _
    exact hinner x y
  rw [hrw1]
  have hmidsum : ∀ x, ((rangeList my My).map (fun y =>
        if x = mx ∨ x = Mx ∨ y = my ∨ y = My then (Mz + 1 - mz).toNat
        else (if mz = Mz then 1 else 2))).sum =
      if x = mx ∨ x = Mx then (My + 1 - my).toNat * (Mz + 1 - mz).toNat
      else (if my = My then 1 else 2) * (Mz + 1 - mz).toNat
        + ((My + 1 - my).toNat - (if my = My then 1 else 2)) *
            (if mz = Mz then 1 else 2) := by
    intro x
    by_cases hxc : x = mx ∨ x = Mx
    · rw [if_pos hxc]
      have hconst : ∀ y ∈ rangeList my My,
          (if x = mx ∨ x = Mx ∨ y = my ∨ y = My then (Mz + 1 - mz).toNat
           else (if mz = Mz then 1 else 2)) = (Mz + 1 - mz).toNat := by
        intro y _
        rw [if_pos (by tauto)]
      rw [List.map_congr_left hconst, sum_map_const, rangeList_length]
    · rw [if_neg hxc]
      push_neg at hxc
      have hsplit : ∀ y ∈ rangeList my My,
          (if x = mx ∨ x = Mx ∨ y = my ∨ y = My then (Mz + 1 - mz).toNat
           else (if mz = Mz then 1 else 2)) =
          (if y = my ∨ y = My then (Mz + 1 - mz).toNat
           else (if mz = Mz then 1 else 2)) := by
        intro y _
        by_cases hyc : y = my ∨ y = My
        · rw [if_pos (by tauto), if_pos hyc]
        · rw [if_neg (by tauto), if_neg hyc]
      rw [List.map_congr_left hsplit,
        sum_map_ite (fun y => y = my ∨ y = My) _ _,
        sum_ite_endpoint hy, rangeList_length]
  have hrw2 : ((rangeList mx Mx).map (fun x =>
        ((rangeList my My).map (fun y =>
          if x = mx ∨ x = Mx ∨ y = my ∨ y = My then (Mz + 1 - mz).toNat
          else (if mz = Mz then 1 else 2))).sum)).sum
      = ((rangeList mx Mx).map (fun x =>
        if x = mx ∨ x = Mx then (My + 1 - my).toNat * (Mz + 1 - mz).toNat
        else (if my = My then 1 else 2) * (Mz + 1 - mz).toNat
          + ((My + 1 - my).toNat - (if my = My then 1 else 2)) *
              (if mz = Mz then 1 else 2))).sum := by
    apply congrArg
    apply List.map_congr_left
    intro x _
    exact hmidsum x
  rw [hrw2, sum_map_ite (fun x => x = mx ∨ x = Mx) _ _,
    sum_ite_endpoint hx, rangeList_length]

/-- Closed form for the outline-fill count: four writes per cell of each of
the three edge-loop ranges (duplicate cells counted again). -/
theorem fill_outline_count (w : World) (blk : Block) (mx my mz Mx My Mz : Int) :
    (fill_outline w mx my mz Mx My Mz blk).2 =
      (Mx + 1 - mx).toNat * 4 + (My - 1 - my).toNat * 4 + (Mz - 1 - mz).toNat * 4 := by
  unfold fill_outline
  rw [foldl_pair_snd _ (fun _ => 4)
      (by
        intro acc z
        simp [List.foldl]),
    foldl_pair_snd _ (fun _ => 4)
      (by
        intro acc y
        simp [List.foldl]),
    foldl_pair_snd _ (fun _ => 4)
      (by
        intro acc x
        simp [List.foldl])]
  rw [sum_map_const, sum_map_const, sum_map_const,
    rangeList_length, rangeList_length, rangeList_length]
  have h1 : (My - 1 + 1 - (my + 1)).toNat = (My - 1 - my).toNat := by omega
  have h2 : (Mz - 1 + 1 - (mz + 1)).toNat = (Mz - 1 - mz).toNat := by omega
  rw [h1, h2]
  simp

/-! ## Claim theorems -/

/-- C1: coordinate resolution is exact and axis-independent — an absolute
coordinate resolves to its own value, a relative one to `origin + value`,
and `Position.resolve` applies the rule independently per axis. -/
theorem coordinate_resolution_exact (v o : Int) (p : Position)
    (origin : Int × Int × Int) :
    Coordinate.resolve ⟨v, false⟩ o = v ∧
    Coordinate.resolve ⟨v, true⟩ o = o + v ∧
    Position.resolve p origin =
      (p.x.resolve origin.1, p.y.resolve origin.2.1, p.z.resolve origin.2.2) :=
  ⟨rfl, rfl, rfl⟩

/-- C2: on a normalized box the hollow-fill count equals the shell formula
`2*(w*d + w*h + d*h) - 4*(w+d+h) + 8` when all dimensions are at least 2,
and degenerates to `w*h*d` (every cell is boundary) when any dimension is 1;
interior air writes are not counted. -/
theorem hollow_fill_count_formula (w : World) (blk : Block)
    (mx my mz Mx My Mz : Int) (hx : mx ≤ Mx) (hy : my ≤ My) (hz : mz ≤ Mz) :
    (2 ≤ Mx - mx + 1 ∧ 2 ≤ My - my + 1 ∧ 2 ≤ Mz - mz + 1 →
      ((fill_hollow w mx my mz Mx My Mz blk).2 : Int) =
        2 * ((Mx - mx + 1) * (Mz - mz + 1) + (Mx - mx + 1) * (My - my + 1)
              + (Mz - mz + 1) * (My - my + 1))
          - 4 * ((Mx - mx + 1) + (Mz - mz + 1) + (My - my + 1)) + 8) ∧
    ((Mx - mx + 1 = 1 ∨ My - my + 1 = 1 ∨ Mz - mz + 1 = 1) →
      ((fill_hollow w mx my mz Mx My Mz blk).2 : Int) =
        (Mx - mx + 1) * (My - my + 1) * (Mz - mz + 1)) := by
  rw [fill_hollow_count w blk mx my mz Mx My Mz hx hy hz]
  constructor
  · rintro ⟨h2x, h2y, h2z⟩
    rw [if_neg (show ¬ mx = Mx by omega), if_neg (show ¬ my = My by omega),
      if_neg (show ¬ mz = Mz by omega)]
    have e1 : (((Mx + 1 - mx).toNat - 2 : Nat) : Int) = (Mx - mx + 1) - 2 := by
      omega
    have e2 : (((My + 1 - my).toNat - 2 : Nat) : Int) = (My - my + 1) - 2 := by
      omega
    have e3 : (((Mx + 1 - mx).toNat : Nat) : Int) = Mx - mx + 1 := by omega
    have e4 : (((My + 1 - my).toNat : Nat) : Int) = My - my + 1 := by omega
    have e5 : (((Mz + 1 - mz).toNat : Nat) : Int) = Mz - mz + 1 := by omega
    push_cast
    simp only [e1, e2, e3, e4, e5]
    ring
  · intro hdeg
    rcases hdeg with h1 | h1 | h1
    · -- width 1: the whole box is boundary
      have hxx : mx = Mx := by omega
      rw [if_pos hxx]
      have hw1 : (Mx + 1 - mx).toNat = 1 := by omega
      rw [hw1]
      simp only [Nat.sub_self, zero_mul, add_zero, one_mul]
      have e4 : (((My + 1 - my).toNat : Nat) : Int) = My - my + 1 := by omega
      have e5 : (((Mz + 1 - mz).toNat : Nat) : Int) = Mz - mz + 1 := by omega
      push_cast
      rw [e4, e5, show Mx - mx + 1 = 1 by omega]
      ring
    · -- height 1
      have hyy : my = My := by omega
      rw [if_pos hyy]
      have hh1 : (My + 1 - my).toNat = 1 := by omega
      rw [hh1]
      simp only [Nat.sub_self, zero_mul, add_zero, one_mul]
      have hfin : (if mx = Mx then 1 else 2) * (Mz + 1 - mz).toNat
          + ((Mx + 1 - mx).toNat - (if mx = Mx then 1 else 2)) * (Mz + 1 - mz).toNat
          = (Mx + 1 - mx).toNat * (Mz + 1 - mz).toNat := by
        rw [← Nat.add_mul]
        congr 1
        split_ifs <;> omega
      rw [hfin]
      have e3 : (((Mx + 1 - mx).toNat : Nat) : Int) = Mx - mx + 1 := by omega
      have e5 : (((Mz + 1 - mz).toNat : Nat) : Int) = Mz - mz + 1 := by omega
      push_cast
      rw [e3, e5, show My - my + 1 = 1 by omega]
      ring
    · -- depth 1
      have hzz : mz = Mz := by omega
      rw [if_pos hzz]
      have hd1 : (Mz + 1 - mz).toNat = 1 := by omega
      rw [hd1]
      simp only [mul_one]
      have hC : (if my = My then 1 else 2)
          + ((My + 1 - my).toNat - (if my = My then 1 else 2))
          = (My + 1 - my).toNat := by
        split_ifs <;> omega
      rw [hC]
      have hfin : (if mx = Mx then 1 else 2) * (My + 1 - my).toNat
          + ((Mx + 1 - mx).toNat - (if mx = Mx then 1 else 2)) * (My + 1 - my).toNat
          = (Mx + 1 - mx).toNat * (My + 1 - my).toNat := by
        rw [← Nat.add_mul]
        congr 1
        split_ifs <;> omega
      rw [hfin]
      have e3 : (((Mx + 1 - mx).toNat : Nat) : Int) = Mx - mx + 1 := by omega
      have e4 : (((My + 1 - my).toNat : Nat) : Int) = My - my + 1 := by omega
      push_cast
      rw [e3, e4, show Mz - mz + 1 = 1 by omega]
      ring

/-- C2 witness: the hollow count of the 3×3×3 box `0..2` matches the shell
formula, and on the 1×3×3 box `x = 0` it matches `w*h*d`. -/
theorem hollow_fill_count_formula_witness :
    ((fill_hollow airWorld 0 0 0 2 2 2 airBlock).2 : Int) =
      2 * ((2 - 0 + 1) * (2 - 0 + 1) + (2 - 0 + 1) * (2 - 0 + 1)
            + (2 - 0 + 1) * (2 - 0 + 1))
        - 4 * ((2 - 0 + 1) + (2 - 0 + 1) + (2 - 0 + 1)) + 8 ∧
    ((fill_hollow airWorld 0 0 0 0 2 2 airBlock).2 : Int) =
      (0 - 0 + 1) * (2 - 0 + 1) * (2 - 0 + 1) :=
  ⟨(hollow_fill_count_formula airWorld airBlock 0 0 0 2 2 2
      (by norm_num) (by norm_num) (by norm_num)).1
      ⟨by norm_num, by norm_num, by norm_num⟩,
   (hollow_fill_count_formula airWorld airBlock 0 0 0 0 2 2
      (by norm_num) (by norm_num) (by norm_num)).2 (Or.inl (by norm_num))⟩

/-- C3 (amended): on a normalized box whose three dimensions are all at
least 2, the outline-fill count is at most the hollow-fill count. (The
original claim for all dimensions ≥ 1 is false: outline writes each corner
cell of a degenerate box several times and counts every write.) -/
theorem outline_count_le_hollow_count (w : World) (blk : Block)
    (mx my mz Mx My Mz : Int)
    (hx : mx + 1 ≤ Mx) (hy : my + 1 ≤ My) (hz : mz + 1 ≤ Mz) :
    (fill_outline w mx my mz Mx My Mz blk).2 ≤
      (fill_hollow w mx my mz Mx My Mz blk).2 := by
  rw [fill_outline_count,
    fill_hollow_count w blk mx my mz Mx My Mz (by omega) (by omega) (by omega)]
  rw [if_neg (show ¬ mx = Mx by omega), if_neg (show ¬ my = My by omega),
    if_neg (show ¬ mz = Mz by omega)]
  rw [← Nat.cast_le (α := Int)]
  have e1 : (((Mx + 1 - mx).toNat - 2 : Nat) : Int) = (Mx - mx + 1) - 2 := by omega
  have e2 : (((My + 1 - my).toNat - 2 : Nat) : Int) = (My - my + 1) - 2 := by omega
  have e3 : (((Mx + 1 - mx).toNat : Nat) : Int) = Mx - mx + 1 := by omega
  have e4 : (((My + 1 - my).toNat : Nat) : Int) = My - my + 1 := by omega
  have e5 : (((Mz + 1 - mz).toNat : Nat) : Int) = Mz - mz + 1 := by omega
  have e6 : (((My - 1 - my).toNat : Nat) : Int) = (My - my + 1) - 2 := by omega
  have e7 : (((Mz - 1 - mz).toNat : Nat) : Int) = (Mz - mz + 1) - 2 := by omega
  push_cast
  rw [e1, e2, e3, e4, e5, e6, e7]
  have p1 : (0 : Int) ≤ (Mx - mx + 1) - 2 := by omega
  have p2 : (0 : Int) ≤ (My - my + 1) - 2 := by omega
  have p3 : (0 : Int) ≤ (Mz - mz + 1) - 2 := by omega
  nlinarith [mul_nonneg p1 p2, mul_nonneg p1 p3, mul_nonneg p2 p3]

/-- C3 counterexample: on the 1×1×1 box the outline count is 4 (the four
corner writes all hit the same cell and are each counted) while the hollow
count is 1, so outline exceeds hollow. -/
theorem outline_count_exceeds_hollow_on_unit_box :
    ¬ ((fill_outline airWorld 0 0 0 0 0 0 airBlock).2 ≤
        (fill_hollow airWorld 0 0 0 0 0 0 airBlock).2) := by
  decide

/-- C3 witness: the amended bound applied to the 2×2×2 box `0..1`. -/
theorem outline_count_le_hollow_count_witness :
    (0 : Int) + 1 ≤ 1 ∧
    (fill_outline airWorld 0 0 0 1 1 1 airBlock).2 ≤
      (fill_hollow airWorld 0 0 0 1 1 1 airBlock).2 :=
  ⟨by norm_num,
   outline_count_le_hollow_count airWorld airBlock 0 0 0 1 1 1
     (by norm_num) (by norm_num) (by norm_num)⟩

/-- C4: the origin computed by `place_at` is the target position for the
corner anchor, the position minus the floor-halved box dimensions for the
center anchor, and the same with the y component left unchanged for the
base-center anchor. -/
theorem place_at_anchor_origin (w : World) (script : Script)
    (p : Int × Int × Int) (bbox : BoundingBox)
    (h : analyze_script script = .ok bbox) :
    (∃ r, (place_at w script p (.val .corner)).2 = .ok r ∧ r.origin_used = p) ∧
    (∃ r, (place_at w script p (.val .center)).2 = .ok r ∧
        r.origin_used = (p.1 - bbox.width.fdiv 2, p.2.1 - bbox.height.fdiv 2,
          p.2.2 - bbox.depth.fdiv 2)) ∧
    (∃ r, (place_at w script p (.val .base_center)).2 = .ok r ∧
        r.origin_used = (p.1 - bbox.width.fdiv 2, p.2.1,
          p.2.2 - bbox.depth.fdiv 2)) := by
  unfold place_at
  rw [h]
  exact ⟨⟨_, rfl, rfl⟩, ⟨_, rfl, rfl⟩, ⟨_, rfl, rfl⟩⟩

/-- C4 witness: an 11×6×11 structure placed at `(100, 64, 100)` yields
origins `(100,64,100)`, `(95,61,95)` and `(95,64,95)` for the three anchors. -/
theorem place_at_anchor_origin_witness :
    analyze_script [some (.fill ⟨⟨⟨0, false⟩, ⟨0, false⟩, ⟨0, false⟩⟩,
        ⟨⟨10, false⟩, ⟨5, false⟩, ⟨10, false⟩⟩, ⟨"minecraft", "stone", none⟩,
        .replace⟩)] = .ok ⟨0, 0, 0, 10, 5, 10⟩ ∧
    (∃ r, (place_at airWorld [some (.fill ⟨⟨⟨0, false⟩, ⟨0, false⟩, ⟨0, false⟩⟩,
        ⟨⟨10, false⟩, ⟨5, false⟩, ⟨10, false⟩⟩, ⟨"minecraft", "stone", none⟩,
        .replace⟩)] (100, 64, 100) (.val .center)).2 = .ok r ∧
      r.origin_used = (95, 61, 95)) := by
  have h : analyze_script [some (.fill ⟨⟨⟨0, false⟩, ⟨0, false⟩, ⟨0, false⟩⟩,
      ⟨⟨10, false⟩, ⟨5, false⟩, ⟨10, false⟩⟩, ⟨"minecraft", "stone", none⟩,
      .replace⟩)] = .ok ⟨0, 0, 0, 10, 5, 10⟩ := by decide
  refine ⟨h, ?_⟩
  obtain ⟨r, hr, ho⟩ := (place_at_anchor_origin airWorld _ (100, 64, 100) _ h).2.1
  exact ⟨r, hr, by rw [ho]; decide⟩

/-- C5 (amended): without a reference script `place_adjacent` uses the
sentinel box `BoundingBox(0,0,0,0,0,0)`, whose inclusive extents are 1 on
every axis; so for east, south and up the computed origin is displaced from
`relative_to` along the direction axis by exactly `gap + 1`, the other
components unchanged. (The original claim of a displacement of exactly
`gap` is false.) -/
theorem place_adjacent_point_reference (w : World) (script : Script)
    (relative_to : Int × Int × Int) (gap : Int) (bbox : BoundingBox)
    (h : analyze_script script = .ok bbox) :
    (∃ r, (place_adjacent w script relative_to (.val .east) gap none).2 = .ok r ∧
        r.origin_used = (relative_to.1 + 1 + gap, relative_to.2.1, relative_to.2.2)) ∧
    (∃ r, (place_adjacent w script relative_to (.val .south) gap none).2 = .ok r ∧
        r.origin_used = (relative_to.1, relative_to.2.1, relative_to.2.2 + 1 + gap)) ∧
    (∃ r, (place_adjacent w script relative_to (.val .up) gap none).2 = .ok r ∧
        r.origin_used = (relative_to.1, relative_to.2.1 + 1 + gap, relative_to.2.2)) := by
  unfold place_adjacent
  rw [h]
  simp only [directionFromArg, calculate_adjacent_origin,
    BoundingBox.width, BoundingBox.height, BoundingBox.depth]
  refine ⟨⟨_, rfl, ?_⟩, ⟨_, rfl, ?_⟩, ⟨_, rfl, ?_⟩⟩ <;>
    simp only [Prod.mk.injEq] <;> norm_num

/-- C5 counterexample: with `relative_to = (0,0,0)`, `gap = 0`, direction
east and no reference script, the computed origin has x-coordinate 1, not
`0 + 0` as the claim predicts. -/
theorem place_adjacent_point_reference_counterexample :
    (place_adjacent airWorld [] (0, 0, 0) (.val .east) 0 none).2 =
      .ok ⟨0, ⟨0, 0, 0, 0, 0, 0⟩, (1, 0, 0)⟩ ∧ (1 : Int) ≠ 0 + 0 := by
  constructor
  · decide
  · decide

/-- C5 witness: the amended displacement applied to the empty script at
`relative_to = (2,3,4)`, `gap = 5`: east yields origin `(2+1+5, 3, 4)`. -/
theorem place_adjacent_point_reference_witness :
    analyze_script ([] : Script) = .ok ⟨0, 0, 0, 0, 0, 0⟩ ∧
    (∃ r, (place_adjacent airWorld [] (2, 3, 4) (.val .east) 5 none).2 = .ok r ∧
        r.origin_used = ((2 : Int) + 1 + 5, (3 : Int), (4 : Int))) := by
  have h : analyze_script ([] : Script) = .ok ⟨0, 0, 0, 0, 0, 0⟩ := by decide
  exact ⟨h, (place_adjacent_point_reference airWorld [] (2, 3, 4) 5 _ h).1⟩

/-- C6 (amended): provided the script's bounding-box analysis succeeds
(it always runs first), a non-string anchor or direction value outside the
recognized enumerators makes `place_at` / `place_adjacent` fail with
`PlacementError` and leave the world untouched; an unrecognized *string*
instead raises `ValueError` from the enum conversion, also before any world
mutation. (The original claim that every unrecognized value raises
`PlacementError` is false for strings.) -/
theorem placement_unrecognized_arg (w : World) (script : Script)
    (p : Int × Int × Int) (bbox : BoundingBox)
    (h : analyze_script script = .ok bbox) :
    place_at w script p (.val .other) = (w, .error .placementError) ∧
    (∀ s : String, anchorOfString (pyLower s) = none →
        place_at w script p (.str s) = (w, .error .valueError)) ∧
    (∀ gap : Int,
        place_adjacent w script p (.val .other) gap none =
          (w, .error .placementError)) ∧
    (∀ (gap : Int) (refScript : Script) (refBbox : BoundingBox),
        analyze_script refScript = .ok refBbox →
        place_adjacent w script p (.val .other) gap (some refScript) =
          (w, .error .placementError)) ∧
    (∀ (gap : Int) (refOpt : Option Script) (s : String),
        directionOfString (pyLower s) = none →
        place_adjacent w script p (.str s) gap refOpt =
          (w, .error .valueError)) := by
  refine ⟨?_, ?_, ?_, ?_, ?_⟩
  · unfold place_at
    rw [h]
    rfl
  · intro s hs
    unfold place_at
    rw [h]
    simp only [anchorFromArg, hs]
  · intro gap
    unfold place_adjacent
    rw [h]
    rfl
  · intro gap refScript refBbox href
    unfold place_adjacent
    rw [h]
    simp only [directionFromArg, href]
    rfl
  · intro gap refOpt s hs
    unfold place_adjacent
    rw [h]
    simp only [directionFromArg, hs]

/-- C6 counterexample: the unrecognized anchor string `"weird"` makes
`place_at` fail with `ValueError` (from `Anchor("weird")`), not
`PlacementError`. -/
theorem placement_unrecognized_arg_counterexample :
    (place_at airWorld [] (0, 0, 0) (.str "weird")).2 = .error .valueError ∧
    PyErr.valueError ≠ PyErr.placementError := by
  constructor
  · decide
  · decide

/-- C6 witness: on the empty script, the non-string unrecognized anchor
value yields `PlacementError` and leaves the world unchanged. -/
theorem placement_unrecognized_arg_witness :
    analyze_script ([] : Script) = .ok ⟨0, 0, 0, 0, 0, 0⟩ ∧
    place_at airWorld [] (0, 0, 0) (.val .other) =
      (airWorld, .error .placementError) := by
  have h : analyze_script ([] : Script) = .ok ⟨0, 0, 0, 0, 0, 0⟩ := by decide
  exact ⟨h, (placement_unrecognized_arg airWorld [] (0, 0, 0) _ h).1⟩

/-! ## Bounds-fold machinery (C7) -/

/-- The absolute values contributed to one axis (selected by `sel`) by the
positions of a command list, in traversal order. -/
def absValues (sel : Position → Coordinate) (cmds : List CommandAST) : List Int :=
  cmds.flatMap (fun ast =>
    (extractPositions ast).filterMap (fun p =>
      if (sel p).relative then none else some ((sel p).value)))

theorem boundsStep_eq (b : Bounds) (pos : Position) :
    boundsStep b pos =
      ⟨if pos.x.relative then b.min_x else updateMin b.min_x pos.x.value,
       if pos.y.relative then b.min_y else updateMin b.min_y pos.y.value,
       if pos.z.relative then b.min_z else updateMin b.min_z pos.z.value,
       if pos.x.relative then b.max_x else updateMax b.max_x pos.x.value,
       if pos.y.relative then b.max_y else updateMax b.max_y pos.y.value,
       if pos.z.relative then b.max_z else updateMax b.max_z pos.z.value⟩ := by
  cases hx : pos.x.relative <;> cases hy : pos.y.relative <;>
    cases hz : pos.z.relative <;> simp [boundsStep, hx, hy, hz]

/-- Positions-fold of `boundsStep`, decomposed per axis. -/
theorem foldl_boundsStep_eq : ∀ (ps : List Position) (b : Bounds),
    ps.foldl boundsStep b =
      ⟨(ps.filterMap (fun p => if p.x.relative then none else some p.x.value)).foldl
          updateMin b.min_x,
       (ps.filterMap (fun p => if p.y.relative then none else some p.y.value)).foldl
          updateMin b.min_y,
       (ps.filterMap (fun p => if p.z.relative then none else some p.z.value)).foldl
          updateMin b.min_z,
       (ps.filterMap (fun p => if p.x.relative then none else some p.x.value)).foldl
          updateMax b.max_x,
       (ps.filterMap (fun p => if p.y.relative then none else some p.y.value)).foldl
          updateMax b.max_y,
       (ps.filterMap (fun p => if p.z.relative then none else some p.z.value)).foldl
          updateMax b.max_z⟩ := by
  intro ps
  induction ps with
  | nil => intro b; simp
  | cons p t ih =>
      intro b
      rw [List.foldl_cons, ih, boundsStep_eq]
      cases hx : p.x.relative <;> cases hy : p.y.relative <;>
        cases hz : p.z.relative <;>
        simp [List.filterMap_cons, hx, hy, hz]

/-- The command fold of `_compute_coordinate_bounds` from any starting
state, decomposed per axis. -/
theorem foldl_cmds_bounds : ∀ (script : Script) (b : Bounds),
    script.foldl (fun b item =>
      match item with
      | none => b
      | some ast => (extractPositions ast).foldl boundsStep b) b =
      ⟨(absValues (fun p => p.x) (script.filterMap id)).foldl updateMin b.min_x,
       (absValues (fun p => p.y) (script.filterMap id)).foldl updateMin b.min_y,
       (absValues (fun p => p.z) (script.filterMap id)).foldl updateMin b.min_z,
       (absValues (fun p => p.x) (script.filterMap id)).foldl updateMax b.max_x,
       (absValues (fun p => p.y) (script.filterMap id)).foldl updateMax b.max_y,
       (absValues (fun p => p.z) (script.filterMap id)).foldl updateMax b.max_z⟩ := by
  intro script
  induction script with
  | nil => intro b; rfl
  | cons item t ih =>
      intro b
      cases item with
      | none =>
          calc (List.foldl _ b (none :: t))
              = t.foldl (fun b item =>
                  match item with
                  | none => b
                  | some ast => (extractPositions ast).foldl boundsStep b) b := rfl
            _ = _ := by rw [ih]; rfl
      | some ast =>
          calc (List.foldl _ b (some ast :: t))
              = t.foldl (fun b item =>
                  match item with
                  | none => b
                  | some ast => (extractPositions ast).foldl boundsStep b)
                  ((extractPositions ast).foldl boundsStep b) := rfl
            _ = _ := by
                rw [ih, foldl_boundsStep_eq]
                simp only [absValues, List.filterMap_cons, id, List.flatMap_cons,
                  List.foldl_append]

/-- `_compute_coordinate_bounds` equals the per-axis folds over the
absolute-value lists. -/
theorem computeCoordinateBounds_eq (script : Script) :
    computeCoordinateBounds script =
      ⟨(absValues (fun p => p.x) (script.filterMap id)).foldl updateMin none,
       (absValues (fun p => p.y) (script.filterMap id)).foldl updateMin none,
       (absValues (fun p => p.z) (script.filterMap id)).foldl updateMin none,
       (absValues (fun p => p.x) (script.filterMap id)).foldl updateMax none,
       (absValues (fun p => p.y) (script.filterMap id)).foldl updateMax none,
       (absValues (fun p => p.z) (script.filterMap id)).foldl updateMax none⟩ :=
  foldl_cmds_bounds script ⟨none, none, none, none, none, none⟩

theorem foldl_updateMin_some : ∀ (l : List Int) (a : Int),
    ∃ m, l.foldl updateMin (some a) = some m ∧ (m = a ∨ m ∈ l) ∧ m ≤ a ∧
      ∀ v ∈ l, m ≤ v := by
  intro l
  induction l with
  | nil => intro a; exact ⟨a, rfl, Or.inl rfl, le_refl a, by simp⟩
  | cons v t ih =>
      intro a
      rw [List.foldl_cons]
      obtain ⟨m, hm, hmem, hle, hall⟩ := ih (min a v)
      refine ⟨m, hm, ?_, ?_, ?_⟩
      · rcases hmem with rfl | hmem
        · rcases min_cases a v with ⟨h1, _⟩ | ⟨h1, _⟩
          · exact Or.inl h1
          · exact Or.inr (by simp [h1])
        · exact Or.inr (by simp [hmem])
      · exact le_trans hle (min_le_left a v)
      · intro u hu
        rcases List.mem_cons.mp hu with rfl | hu
        · exact le_trans hle (min_le_right a u)
        · exact hall u hu

theorem foldl_updateMax_some : ∀ (l : List Int) (a : Int),
    ∃ m, l.foldl updateMax (some a) = some m ∧ (m = a ∨ m ∈ l) ∧ a ≤ m ∧
      ∀ v ∈ l, v ≤ m := by
  intro l
  induction l with
  | nil => intro a; exact ⟨a, rfl, Or.inl rfl, le_refl a, by simp⟩
  | cons v t ih =>
      intro a
      rw [List.foldl_cons]
      obtain ⟨m, hm, hmem, hle, hall⟩ := ih (max a v)
      refine ⟨m, hm, ?_, ?_, ?_⟩
      · rcases hmem with rfl | hmem
        · rcases max_cases a v with ⟨h1, _⟩ | ⟨h1, _⟩
          · exact Or.inl h1
          · exact Or.inr (by simp [h1])
        · exact Or.inr (by simp [hmem])
      · exact le_trans (le_max_left a v) hle
      · intro u hu
        rcases List.mem_cons.mp hu with rfl | hu
        · exact le_trans (le_max_right a u) hle
        · exact hall u hu

theorem foldl_updateMin_ne_nil {l : List Int} (hl : l ≠ []) :
    ∃ m, l.foldl updateMin none = some m ∧ m ∈ l ∧ ∀ v ∈ l, m ≤ v := by
  cases l with
  | nil => exact absurd rfl hl
  | cons v t =>
      rw [List.foldl_cons]
      obtain ⟨m, hm, hmem, hle, hall⟩ := foldl_updateMin_some t v
      refine ⟨m, hm, ?_, ?_⟩
      · rcases hmem with rfl | hmem
        · simp
        · simp [hmem]
      · intro u hu
        rcases List.mem_cons.mp hu with rfl | hu
        · exact hle
        · exact hall u hu

theorem foldl_updateMax_ne_nil {l : List Int} (hl : l ≠ []) :
    ∃ m, l.foldl updateMax none = some m ∧ m ∈ l ∧ ∀ v ∈ l, v ≤ m := by
  cases l with
  | nil => exact absurd rfl hl
  | cons v t =>
      rw [List.foldl_cons]
      obtain ⟨m, hm, hmem, hle, hall⟩ := foldl_updateMax_some t v
      refine ⟨m, hm, ?_, ?_⟩
      · rcases hmem with rfl | hmem
        · simp
        · simp [hmem]
      · intro u hu
        rcases List.mem_cons.mp hu with rfl | hu
        · exact hle
        · exact hall u hu

/-- The positions-fold of the `min_y` scan. -/
theorem foldl_minY_positions : ∀ (ps : List Position) (acc : Option Int),
    ps.foldl (fun a pos =>
      if pos.y.relative then a else updateMin a pos.y.value) acc =
    (ps.filterMap (fun p =>
      if p.y.relative then none else some p.y.value)).foldl updateMin acc := by
  intro ps
  induction ps with
  | nil => intro acc; simp
  | cons p pt ihp =>
      intro acc
      cases hy : p.y.relative <;>
        simp [List.filterMap_cons, hy, ihp]

/-- The command fold of the `min_y` scan from any accumulator. -/
theorem foldl_minY_cmds : ∀ (cmds : List CommandAST) (a : Option Int),
    cmds.foldl (fun acc cmd =>
      (extractPositions cmd).foldl (fun a pos =>
        if pos.y.relative then a else updateMin a pos.y.value) acc) a =
    (absValues (fun p => p.y) cmds).foldl updateMin a := by
  intro cmds
  induction cmds with
  | nil => intro a; rfl
  | cons ast t ih =>
      intro a
      rw [List.foldl_cons, ih, foldl_minY_positions]
      simp only [absValues, List.flatMap_cons, List.foldl_append]

/-- The `min_y` scan of `get_base_footprint` equals the fold over the
absolute y-values. -/
theorem minYAbs_eq (cmds : List CommandAST) :
    minYAbs cmds = (absValues (fun p => p.y) cmds).foldl updateMin none :=
  foldl_minY_cmds cmds none

/-- C7: the bounding box is the per-axis running min/max over every absolute
coordinate of every setblock position and both fill endpoints (relative
coordinates contribute nothing): when every axis observes at least one
absolute value, `analyze_script` returns the box of per-axis least and
greatest observed values; when no absolute coordinate is observed at all,
it returns the all-zero sentinel box and the base footprint is the zero
footprint (`block_count = 0`). -/
theorem bounding_box_is_absolute_fold (script : Script) :
    (absValues (fun p => p.x) (script.filterMap id) = [] ∧
     absValues (fun p => p.y) (script.filterMap id) = [] ∧
     absValues (fun p => p.z) (script.filterMap id) = [] →
      analyze_script script = .ok ⟨0, 0, 0, 0, 0, 0⟩ ∧
      get_base_footprint script = .ok ⟨0, 0, 0, 0, 0, 0⟩) ∧
    (absValues (fun p => p.x) (script.filterMap id) ≠ [] →
     absValues (fun p => p.y) (script.filterMap id) ≠ [] →
     absValues (fun p => p.z) (script.filterMap id) ≠ [] →
      ∃ bbox, analyze_script script = .ok bbox ∧
        (bbox.min_x ∈ absValues (fun p => p.x) (script.filterMap id) ∧
          ∀ v ∈ absValues (fun p => p.x) (script.filterMap id), bbox.min_x ≤ v) ∧
        (bbox.max_x ∈ absValues (fun p => p.x) (script.filterMap id) ∧
          ∀ v ∈ absValues (fun p => p.x) (script.filterMap id), v ≤ bbox.max_x) ∧
        (bbox.min_y ∈ absValues (fun p => p.y) (script.filterMap id) ∧
          ∀ v ∈ absValues (fun p => p.y) (script.filterMap id), bbox.min_y ≤ v) ∧
        (bbox.max_y ∈ absValues (fun p => p.y) (script.filterMap id) ∧
          ∀ v ∈ absValues (fun p => p.y) (script.filterMap id), v ≤ bbox.max_y) ∧
        (bbox.min_z ∈ absValues (fun p => p.z) (script.filterMap id) ∧
          ∀ v ∈ absValues (fun p => p.z) (script.filterMap id), bbox.min_z ≤ v) ∧
        (bbox.max_z ∈ absValues (fun p => p.z) (script.filterMap id) ∧
          ∀ v ∈ absValues (fun p => p.z) (script.filterMap id), v ≤ bbox.max_z)) := by
  constructor
  · rintro ⟨hx, hy, hz⟩
    constructor
    · unfold analyze_script
      rw [computeCoordinateBounds_eq, hx, hy, hz]
      rfl
    · unfold get_base_footprint
      by_cases hcm : (script.filterMap id).isEmpty
      · simp only [hcm, if_true]
      · simp only [hcm, if_false]
        rw [minYAbs_eq, hy]
        rfl
  · intro hx hy hz
    obtain ⟨mx, hminx, hmemx, hallx⟩ := foldl_updateMin_ne_nil hx
    obtain ⟨Mx, hmaxx, hmemX, hallX⟩ := foldl_updateMax_ne_nil hx
    obtain ⟨my, hminy, hmemy, hally⟩ := foldl_updateMin_ne_nil hy
    obtain ⟨My, hmaxy, hmemY, hallY⟩ := foldl_updateMax_ne_nil hy
    obtain ⟨mz, hminz, hmemz, hallz⟩ := foldl_updateMin_ne_nil hz
    obtain ⟨Mz, hmaxz, hmemZ, hallZ⟩ := foldl_updateMax_ne_nil hz
    refine ⟨⟨mx, my, mz, Mx, My, Mz⟩, ?_, ⟨hmemx, hallx⟩, ⟨hmemX, hallX⟩,
      ⟨hmemy, hally⟩, ⟨hmemY, hallY⟩, ⟨hmemz, hallz⟩, ⟨hmemZ, hallZ⟩⟩
    unfold analyze_script
    rw [computeCoordinateBounds_eq]
    simp only [hminx, hminy, hminz, hmaxx, hmaxy, hmaxz]

/-- C7 witness: a script consisting of a single comment line (one `none`
entry) observes no absolute coordinate and yields the zero sentinel box and
the zero footprint. -/
theorem bounding_box_is_absolute_fold_witness :
    analyze_script [none] = .ok ⟨0, 0, 0, 0, 0, 0⟩ ∧
    get_base_footprint [none] = .ok ⟨0, 0, 0, 0, 0, 0⟩ :=
  (bounding_box_is_absolute_fold [none]).1 ⟨by decide, by decide, by decide⟩

/-- C8: `place_grid` visits cells in row-major order and, with the corner
anchor, places cell `(row, col)` at origin
`start + (col*(bbox.width+sx), 0, row*(bbox.depth+sz))`, returning one
`PlacementResult` per cell in generation order. -/
theorem place_grid_row_major (w : World) (script : Script)
    (start : Int × Int × Int) (cols rows sx sz : Int) (bbox : BoundingBox)
    (h : analyze_script script = .ok bbox) :
    ∃ L, (place_grid w script start (cols, rows) (sx, sz) (.val .corner)).2
        = .ok L ∧
      L.map (fun r => r.origin_used) =
        (gridIndices rows).flatMap (fun row =>
          (gridIndices cols).map (fun col =>
            (start.1 + col * (bbox.width + sx), start.2.1,
             start.2.2 + row * (bbox.depth + sz)))) ∧
      L.length = rows.toNat * cols.toNat ∧
      ∀ r ∈ L, r.bounding_box = bbox := by
  have hplace : ∀ (w0 : World) (pos : Int × Int × Int),
      place_at w0 script pos (.val .corner) =
        ((execute_script w0 script pos).1,
          .ok ⟨(execute_script w0 script pos).2, bbox, pos⟩) := by
    intro w0 pos
    unfold place_at
    rw [h]
    rfl
  have key : ∀ (cells : List (Int × Int)) (w0 : World)
      (acc : List PlacementResult),
      ∃ L : List PlacementResult, (cells.foldl
          (fun (acc : World × Except PyErr (List PlacementResult)) rc =>
            match acc.2 with
            | .error _ => acc
            | .ok results =>
                let position :=
                  (start.1 + rc.2 * (bbox.width + sx),
                   start.2.1,
                   start.2.2 + rc.1 * (bbox.depth + sz))
                let r := place_at acc.1 script position (.val .corner)
                match r.2 with
                | .error e => (r.1, .error e)
                | .ok res => (r.1, .ok (results ++ [res])))
          (w0, .ok acc)).2 = .ok (acc ++ L) ∧
        L.map (fun r => r.origin_used) =
          cells.map (fun rc =>
            (start.1 + rc.2 * (bbox.width + sx), start.2.1,
             start.2.2 + rc.1 * (bbox.depth + sz))) ∧
        L.length = cells.length ∧
        ∀ r ∈ L, r.bounding_box = bbox := by
    intro cells
    induction cells with
    | nil =>
        intro w0 acc
        exact ⟨[], by simp, by simp, by simp, by simp⟩
    | cons rc t ih =>
        intro w0 acc
        rw [List.foldl_cons]
        have hstep :
            (match (w0, Except.ok (ε := PyErr) acc).2 with
             | .error _ => (w0, Except.ok (ε := PyErr) acc)
             | .ok results =>
                let position :=
                  (start.1 + rc.2 * (bbox.width + sx),
                   start.2.1,
                   start.2.2 + rc.1 * (bbox.depth + sz))
                let r := place_at (w0, Except.ok (ε := PyErr) acc).1 script
                  position (.val .corner)
                match r.2 with
                | .error e => (r.1, .error e)
                | .ok res => (r.1, .ok (results ++ [res]))) =
            ((execute_script w0 script
                (start.1 + rc.2 * (bbox.width + sx), start.2.1,
                 start.2.2 + rc.1 * (bbox.depth + sz))).1,
             .ok (acc ++ [⟨(execute_script w0 script
                (start.1 + rc.2 * (bbox.width + sx), start.2.1,
                 start.2.2 + rc.1 * (bbox.depth + sz))).2, bbox,
                (start.1 + rc.2 * (bbox.width + sx), start.2.1,
                 start.2.2 + rc.1 * (bbox.depth + sz))⟩])) := by
          simp only [hplace]
        rw [hstep]
        obtain ⟨L, h1, h2, h3, h4⟩ := ih
          (execute_script w0 script
            (start.1 + rc.2 * (bbox.width + sx), start.2.1,
             start.2.2 + rc.1 * (bbox.depth + sz))).1
          (acc ++ [⟨(execute_script w0 script
            (start.1 + rc.2 * (bbox.width + sx), start.2.1,
             start.2.2 + rc.1 * (bbox.depth + sz))).2, bbox,
            (start.1 + rc.2 * (bbox.width + sx), start.2.1,
             start.2.2 + rc.1 * (bbox.depth + sz))⟩])
        refine ⟨⟨(execute_script w0 script
            (start.1 + rc.2 * (bbox.width + sx), start.2.1,
             start.2.2 + rc.1 * (bbox.depth + sz))).2, bbox,
            (start.1 + rc.2 * (bbox.width + sx), start.2.1,
             start.2.2 + rc.1 * (bbox.depth + sz))⟩ :: L, ?_, ?_, ?_, ?_⟩
        · rw [h1, List.append_assoc]
          rfl
        · simp only [List.map_cons, h2, List.map_cons]
        · simp only [List.length_cons, h3, List.length_cons]
        · intro r hr
          rcases List.mem_cons.mp hr with rfl | hr
          · rfl
          · exact h4 r hr
  unfold place_grid
  rw [h]
  obtain ⟨L, h1, h2, h3, h4⟩ := key
    ((gridIndices rows).flatMap (fun row =>
      (gridIndices cols).map (fun col => (row, col)))) w []
  refine ⟨L, ?_, ?_, ?_, h4⟩
  · have hnil : ([] : List PlacementResult) ++ L = L := by simp
    rw [← hnil, ← h1]
    rfl
  · rw [h2, List.map_flatMap]
    apply congrArg
    funext row
    rw [List.map_map]
    rfl
  · rw [h3, List.length_flatMap]
    have : ∀ row ∈ gridIndices rows,
        (List.length ∘ fun row => (gridIndices cols).map
          (fun col => (row, col))) row = cols.toNat := by
      intro row _
      simp [gridIndices]
    rw [List.map_congr_left this, sum_map_const]
    simp [gridIndices]

/-- C8 witness: a 3×3 structure on a 2×2 grid with spacing `(1,1)` from
`(0,64,0)` yields origins `(0,64,0), (4,64,0), (0,64,4), (4,64,4)` in
row-major order. -/
theorem place_grid_row_major_witness :
    ∃ L, (place_grid airWorld
        [some (.fill ⟨⟨⟨0, false⟩, ⟨64, false⟩, ⟨0, false⟩⟩,
          ⟨⟨2, false⟩, ⟨64, false⟩, ⟨2, false⟩⟩,
          ⟨"minecraft", "stone", none⟩, .replace⟩)]
        (0, 64, 0) (2, 2) (1, 1) (.val .corner)).2 = .ok L ∧
      L.map (fun r => r.origin_used) =
        [(0, 64, 0), (4, 64, 0), (0, 64, 4), (4, 64, 4)] ∧
      L.length = 4 := by
  have h : analyze_script [some (.fill ⟨⟨⟨0, false⟩, ⟨64, false⟩, ⟨0, false⟩⟩,
      ⟨⟨2, false⟩, ⟨64, false⟩, ⟨2, false⟩⟩,
      ⟨"minecraft", "stone", none⟩, .replace⟩)] = .ok ⟨0, 64, 0, 2, 64, 2⟩ := by
    decide
  obtain ⟨L, h1, h2, h3, _⟩ := place_grid_row_major airWorld _ (0, 64, 0)
    2 2 1 1 _ h
  exact ⟨L, h1, by rw [h2]; decide, by rw [h3]; rfl⟩

/-- C9: when the commands contain at least one absolute y-coordinate, the
base footprint is the slice at the minimum absolute y: `_get_footprint_at_y`
and `get_slice_at_y` agree on `min_x`, `max_x`, `min_z`, `max_z` and
`block_count` (including the error case), the two loops being extensionally
equal functions of the command list and the queried y. -/
theorem base_footprint_matches_slice (script : Script) (y0 : Int)
    (h : minYAbs (script.filterMap id) = some y0) :
    (get_base_footprint script).map
        (fun fp => (fp.min_x, fp.max_x, fp.min_z, fp.max_z, fp.block_count)) =
      (get_slice_at_y script y0).map
        (fun sl => (sl.min_x, sl.max_x, sl.min_z, sl.max_z, sl.block_count)) := by
  have hstep : footprintStep y0 = sliceStep y0 := by
    funext st cmd
    cases cmd <;> rfl
  have hne : (script.filterMap id).isEmpty = false := by
    cases hc : script.filterMap id with
    | nil => rw [hc] at h; exact absurd h (by simp [minYAbs])
    | cons a t => simp
  unfold get_base_footprint get_slice_at_y footprint_at_y
  simp only [hne, Bool.false_eq_true, if_false]
  rw [h]
  simp only [hstep]
  cases hmx : ((script.filterMap id).foldl (sliceStep y0)
      ⟨none, none, none, none, 0⟩).min_x with
  | none => rfl
  | some mx =>
      cases hMx : ((script.filterMap id).foldl (sliceStep y0)
          ⟨none, none, none, none, 0⟩).max_x <;>
        cases hmz : ((script.filterMap id).foldl (sliceStep y0)
          ⟨none, none, none, none, 0⟩).min_z <;>
        cases hMz : ((script.filterMap id).foldl (sliceStep y0)
          ⟨none, none, none, none, 0⟩).max_z <;>
        rfl

/-- C9 witness: a two-command script with minimum absolute y 64. -/
theorem base_footprint_matches_slice_witness :
    minYAbs ([some (.setblock ⟨⟨⟨1, false⟩, ⟨64, false⟩, ⟨3, false⟩⟩,
        ⟨"minecraft", "stone", none⟩⟩),
      some (.setblock ⟨⟨⟨5, false⟩, ⟨70, false⟩, ⟨7, false⟩⟩,
        ⟨"minecraft", "stone", none⟩⟩)].filterMap id) = some 64 ∧
    (get_base_footprint [some (.setblock ⟨⟨⟨1, false⟩, ⟨64, false⟩, ⟨3, false⟩⟩,
        ⟨"minecraft", "stone", none⟩⟩),
      some (.setblock ⟨⟨⟨5, false⟩, ⟨70, false⟩, ⟨7, false⟩⟩,
        ⟨"minecraft", "stone", none⟩⟩)]).map
        (fun fp => (fp.min_x, fp.max_x, fp.min_z, fp.max_z, fp.block_count)) =
      (get_slice_at_y [some (.setblock ⟨⟨⟨1, false⟩, ⟨64, false⟩, ⟨3, false⟩⟩,
        ⟨"minecraft", "stone", none⟩⟩),
      some (.setblock ⟨⟨⟨5, false⟩, ⟨70, false⟩, ⟨7, false⟩⟩,
        ⟨"minecraft", "stone", none⟩⟩)] 64).map
        (fun sl => (sl.min_x, sl.max_x, sl.min_z, sl.max_z, sl.block_count)) := by
  have h : minYAbs ([some (.setblock ⟨⟨⟨1, false⟩, ⟨64, false⟩, ⟨3, false⟩⟩,
      ⟨"minecraft", "stone", none⟩⟩),
    some (.setblock ⟨⟨⟨5, false⟩, ⟨70, false⟩, ⟨7, false⟩⟩,
      ⟨"minecraft", "stone", none⟩⟩)].filterMap id) = some 64 := by decide
  exact ⟨h, base_footprint_matches_slice _ 64 h⟩

/-! ## Round-trip machinery (C10) -/

/-- Grammar-level well-formedness of a block/state identifier character
(letters, digits, underscore — the CNAME class of the grammar). -/
def identChar (c : Char) : Bool := c.isAlphanum || c == '_'

/-- A well-formed identifier token: non-empty, all `identChar`. -/
def wfIdent (s : String) : Bool := !s.data.isEmpty && s.data.all identChar

/-- A character admissible in a state-value token: anything except the
state-list delimiters and whitespace. -/
def stateValChar (c : Char) : Bool :=
  !(c == ' ') && !(c == ',') && !(c == '[') && !(c == ']') && !(c == '=')

/-- Well-formedness of a state value as producible by the grammar. -/
def wfStateValue : StateValue → Bool
  | .str s => !s.data.isEmpty && s.data.all stateValChar
  | .int _ => true
  | .bool _ => true

/-- Well-formedness of a block spec as producible by the grammar. -/
def wfBlockSpec (b : BlockSpec) : Bool :=
  wfIdent b.ns && wfIdent b.block_id &&
    (match b.states with
     | none => true
     | some ps => !ps.isEmpty && ps.all (fun kv => wfIdent kv.1 && wfStateValue kv.2))

/-- Every coordinate of the position is absolute. -/
def allAbsolutePos (p : Position) : Bool :=
  !p.x.relative && !p.y.relative && !p.z.relative

/-- Every coordinate of the command is absolute. -/
def allAbsolute : CommandAST → Bool
  | .setblock c => allAbsolutePos c.position
  | .fill c => allAbsolutePos c.pos1 && allAbsolutePos c.pos2

/-- The command's block spec is grammar-producible. -/
def wfCommand : CommandAST → Bool
  | .setblock c => wfBlockSpec c.block
  | .fill c => wfBlockSpec c.block

theorem digitChar_toNat {d : Nat} (h : d < 10) :
    (Nat.digitChar d).toNat = 48 + d := by
  interval_cases d <;> decide

theorem digitChar_isDigit {d : Nat} (h : d < 10) :
    (Nat.digitChar d).isDigit = true := by
  interval_cases d <;> decide

theorem natDigits_isDigit : ∀ (n : Nat), ∀ c ∈ natDigits n, c.isDigit = true := by
  intro n
  induction n using Nat.strong_induction_on with
  | _ n ih =>
      intro c hc
      rw [natDigits] at hc
      split at hc
      · next h10 =>
          simp only [List.mem_singleton] at hc
          subst hc
          exact digitChar_isDigit h10
      · next h10 =>
          rcases List.mem_append.mp hc with hc | hc
          · exact ih (n / 10) (Nat.div_lt_self (by omega) (by omega)) c hc
          · simp only [List.mem_singleton] at hc
            subst hc
            exact digitChar_isDigit (Nat.mod_lt n (by omega))

/-- A digit character is none of the delimiter characters. -/
theorem isDigit_ne {c : Char} (h : c.isDigit = true) :
    c ≠ ' ' ∧ c ≠ ',' ∧ c ≠ '[' ∧ c ≠ ']' ∧ c ≠ '=' ∧ c ≠ '+' ∧ c ≠ '-' ∧
      c ≠ ':' ∧ c ≠ '~' ∧ c ≠ '/' := by
  refine ⟨?_, ?_, ?_, ?_, ?_, ?_, ?_, ?_, ?_, ?_⟩ <;>
    (rintro rfl; exact absurd h (by decide))

theorem digitsToNat_natDigits : ∀ (n : Nat), digitsToNat (natDigits n) = n := by
  intro n
  induction n using Nat.strong_induction_on with
  | _ n ih =>
      rw [natDigits]
      split
      · next h10 =>
          unfold digitsToNat
          simp only [List.foldl_cons, List.foldl_nil]
          rw [digitChar_toNat h10]
          omega
      · next h10 =>
          unfold digitsToNat
          rw [List.foldl_append]
          have hdiv := ih (n / 10) (Nat.div_lt_self (by omega) (by omega))
          unfold digitsToNat at hdiv
          rw [hdiv]
          simp only [List.foldl_cons, List.foldl_nil]
          rw [digitChar_toNat (Nat.mod_lt n (by omega))]
          omega

theorem parseNatTok_natDigits (n : Nat) : parseNatTok (natDigits n) = some n := by
  unfold parseNatTok
  rw [if_pos]
  · rw [digitsToNat_natDigits]
  · exact ⟨natDigits_ne_nil n, List.all_eq_true.mpr (natDigits_isDigit n)⟩

theorem parseIntTok_pyFormatPlusD (v : Int) :
    parseIntTok (pyFormatPlusD v) = some v := by
  unfold pyFormatPlusD
  by_cases hv : v < 0
  · rw [if_pos hv, parseIntTok, if_pos rfl, parseNatTok_natDigits,
      Option.map_some']
    congr 1
    omega
  · rw [if_neg hv, parseIntTok, if_neg (by decide), if_pos rfl,
      parseNatTok_natDigits, Option.map_some']
    congr 1
    omega

theorem replacePM_no_plus : ∀ (l : List Char), (∀ c ∈ l, c ≠ '+') →
    replacePM l = l := by
  intro l
  induction l with
  | nil => intro _; rfl
  | cons c cs ih =>
      cases cs with
      | nil => intro _; rfl
      | cons c2 cs2 =>
          intro h
          rw [replacePM, if_neg (by
            rintro ⟨h1, _⟩
            exact h c (by simp) h1)]
          congr 1
          exact ih (fun d hd => h d (by simp [hd]))

theorem pyFormatPlusD_chars (v : Int) :
    ∀ c ∈ pyFormatPlusD v, c.isDigit = true ∨ c = '+' ∨ c = '-' := by
  unfold pyFormatPlusD
  intro c hc
  split at hc
  · rcases List.mem_cons.mp hc with rfl | hc
    · right; right; rfl
    · left; exact natDigits_isDigit _ c hc
  · rcases List.mem_cons.mp hc with rfl | hc
    · right; left; rfl
    · left; exact natDigits_isDigit _ c hc

theorem replacePM_tilde (v : Int) :
    replacePM ('~' :: pyFormatPlusD v) = '~' :: pyFormatPlusD v := by
  unfold pyFormatPlusD
  by_cases hv : v < 0
  · rw [if_pos hv]
    rw [replacePM, if_neg (by rintro ⟨h1, _⟩; exact absurd h1 (by decide))]
    congr 1
    apply replacePM_no_plus
    intro c hc
    rcases List.mem_cons.mp hc with rfl | hc
    · decide
    · exact (isDigit_ne (natDigits_isDigit _ c hc)).2.2.2.2.2.1
  · rw [if_neg hv]
    rw [replacePM, if_neg (by rintro ⟨h1, _⟩; exact absurd h1 (by decide))]
    congr 1
    cases hd : natDigits v.toNat with
    | nil => exact absurd hd (natDigits_ne_nil _)
    | cons d ds =>
        have hdig : d.isDigit = true := by
          apply natDigits_isDigit v.toNat
          rw [hd]
          simp
        rw [replacePM, if_neg (by
          rintro ⟨_, h2⟩
          exact absurd h2 (isDigit_ne hdig).2.2.2.2.2.2.1)]
        congr 1
        apply replacePM_no_plus
        intro c hc
        rcases List.mem_cons.mp hc with rfl | hc
        · exact (isDigit_ne hdig).2.2.2.2.2.1
        · have : c.isDigit = true := by
            apply natDigits_isDigit v.toNat
            rw [hd]
            simp [hc]
          exact (isDigit_ne this).2.2.2.2.2.1

/-- The string `_convert_coord` produces for an absolute coordinate. -/
theorem convert_coord_abs (v base : Int) :
    (convert_coord ⟨v, false⟩ base).data =
      if v - base = 0 then ['~'] else '~' :: pyFormatPlusD (v - base) := by
  show (if v - base = 0 then "~"
        else (⟨replacePM ('~' :: pyFormatPlusD (v - base))⟩ : String)).data = _
  by_cases h0 : v - base = 0
  · simp only [if_pos h0]
  · simp only [if_neg h0]
    show replacePM ('~' :: pyFormatPlusD (v - base)) = _
    exact replacePM_tilde _

theorem pyFormatPlusD_ne_nil (v : Int) : pyFormatPlusD v ≠ [] := by
  unfold pyFormatPlusD
  split <;> simp

/-- Parsing the converted absolute coordinate yields the relative coordinate
with offset `v - base`. -/
theorem parseCoordTok_convert_abs (v base : Int) :
    parseCoordTok ((convert_coord ⟨v, false⟩ base).data) =
      some ⟨v - base, true⟩ := by
  rw [convert_coord_abs]
  by_cases h0 : v - base = 0
  · rw [if_pos h0, h0]
    rfl
  · rw [if_neg h0]
    cases hp : pyFormatPlusD (v - base) with
    | nil => exact absurd hp (pyFormatPlusD_ne_nil _)
    | cons c cs =>
        rw [parseCoordTok, if_pos rfl,
          if_neg (by simp), ← hp, parseIntTok_pyFormatPlusD]
        rfl

/-- Characters of the converted absolute coordinate: never a space (or any
other token delimiter). -/
theorem convert_coord_abs_chars (v base : Int) :
    (convert_coord ⟨v, false⟩ base).data ≠ [] ∧
      ∀ c ∈ (convert_coord ⟨v, false⟩ base).data, c ≠ ' ' := by
  rw [convert_coord_abs]
  by_cases h0 : v - base = 0
  · rw [if_pos h0]
    exact ⟨by simp, by intro c hc; simp at hc; subst hc; decide⟩
  · rw [if_neg h0]
    refine ⟨by simp, ?_⟩
    intro c hc
    rcases List.mem_cons.mp hc with rfl | hc
    · decide
    · rcases pyFormatPlusD_chars _ c hc with hdig | rfl | rfl
      · exact (isDigit_ne hdig).1
      · decide
      · decide

/-- Join pieces with a separator character (list-level view of
`" ".join` / `",".join`). -/
def joinSep (sep : Char) : List (List Char) → List Char
  | [] => []
  | [t] => t
  | t :: ts => t ++ sep :: joinSep sep ts

theorem splitGo_append_nosep (sep : Char) : ∀ (t l cur : List Char),
    (∀ c ∈ t, c ≠ sep) →
    splitGo sep (t ++ l) cur = splitGo sep l (t.reverse ++ cur) := by
  intro t
  induction t with
  | nil => intro l cur _; simp
  | cons c t ih =>
      intro l cur h
      have hc : (c == sep) = false :=
        beq_eq_false_iff_ne.mpr (h c (by simp))
      rw [List.cons_append, splitGo, hc]
      simp only [Bool.false_eq_true, if_false]
      rw [ih l (c :: cur) (fun d hd => h d (by simp [hd]))]
      simp

theorem splitGo_token_cons (sep : Char) (t r : List Char) (ht : t ≠ [])
    (hsep : ∀ c ∈ t, c ≠ sep) :
    splitGo sep (t ++ sep :: r) [] = t :: splitGo sep r [] := by
  rw [splitGo_append_nosep sep t (sep :: r) [] hsep, List.append_nil]
  rw [splitGo]
  simp only [beq_self_eq_true, if_true]
  rw [if_neg ?hne]
  case hne =>
    simp only [List.isEmpty_eq_true, List.reverse_eq_nil_iff]
    exact ht
  rw [List.reverse_reverse]

theorem splitGo_last_token (sep : Char) (t : List Char) (ht : t ≠ [])
    (hsep : ∀ c ∈ t, c ≠ sep) :
    splitGo sep t [] = [t] := by
  have h := splitGo_append_nosep sep t [] [] hsep
  rw [List.append_nil, List.append_nil] at h
  rw [h, splitGo]
  rw [if_neg ?hne]
  case hne =>
    simp only [List.isEmpty_eq_true, List.reverse_eq_nil_iff]
    exact ht
  rw [List.reverse_reverse]

/-- Splitting the separator-join of non-empty separator-free pieces recovers
the pieces. -/
theorem splitGo_joinSep (sep : Char) : ∀ (pieces : List (List Char)),
    (∀ t ∈ pieces, t ≠ [] ∧ ∀ c ∈ t, c ≠ sep) →
    splitGo sep (joinSep sep pieces) [] = pieces := by
  intro pieces
  induction pieces with
  | nil => intro _; rfl
  | cons t ts ih =>
      intro h
      cases ts with
      | nil =>
          show splitGo sep t [] = [t]
          exact splitGo_last_token sep t (h t (by simp)).1 (h t (by simp)).2
      | cons t2 ts2 =>
          show splitGo sep (t ++ sep :: joinSep sep (t2 :: ts2)) [] = _
          rw [splitGo_token_cons sep t _ (h t (by simp)).1 (h t (by simp)).2]
          rw [ih (fun u hu => h u (by simp [hu]))]

theorem takeWhile_all {p : Char → Bool} : ∀ (l : List Char),
    (∀ c ∈ l, p c = true) → l.takeWhile p = l := by
  intro l
  induction l with
  | nil => intro _; rfl
  | cons c t ih =>
      intro h
      rw [List.takeWhile_cons, if_pos (h c (by simp))]
      rw [ih (fun d hd => h d (by simp [hd]))]

theorem dropWhile_all {p : Char → Bool} : ∀ (l : List Char),
    (∀ c ∈ l, p c = true) → l.dropWhile p = [] := by
  intro l
  induction l with
  | nil => intro _; rfl
  | cons c t ih =>
      intro h
      rw [List.dropWhile_cons, if_pos (h c (by simp))]
      exact ih (fun d hd => h d (by simp [hd]))

theorem takeWhile_append_stop {p : Char → Bool} : ∀ (l1 : List Char)
    (x : Char) (l2 : List Char), (∀ c ∈ l1, p c = true) → p x = false →
    (l1 ++ x :: l2).takeWhile p = l1 := by
  intro l1
  induction l1 with
  | nil =>
      intro x l2 _ hx
      rw [List.nil_append, List.takeWhile_cons]
      simp [hx]
  | cons c t ih =>
      intro x l2 h hx
      rw [List.cons_append, List.takeWhile_cons, if_pos (h c (by simp))]
      rw [ih x l2 (fun d hd => h d (by simp [hd])) hx]

theorem dropWhile_append_stop {p : Char → Bool} : ∀ (l1 : List Char)
    (x : Char) (l2 : List Char), (∀ c ∈ l1, p c = true) → p x = false →
    (l1 ++ x :: l2).dropWhile p = x :: l2 := by
  intro l1
  induction l1 with
  | nil =>
      intro x l2 _ hx
      rw [List.nil_append, List.dropWhile_cons]
      simp [hx]
  | cons c t ih =>
      intro x l2 h hx
      rw [List.cons_append, List.dropWhile_cons, if_pos (h c (by simp))]
      exact ih x l2 (fun d hd => h d (by simp [hd])) hx

theorem identChar_ne {c : Char} (h : identChar c = true) :
    c ≠ ' ' ∧ c ≠ ':' ∧ c ≠ '[' ∧ c ≠ ']' ∧ c ≠ ',' ∧ c ≠ '=' ∧ c ≠ '/' := by
  refine ⟨?_, ?_, ?_, ?_, ?_, ?_, ?_⟩ <;>
    (rintro rfl; exact absurd h (by decide))

theorem stateValChar_ne {c : Char} (h : stateValChar c = true) :
    c ≠ ' ' ∧ c ≠ ',' ∧ c ≠ '[' ∧ c ≠ ']' ∧ c ≠ '=' := by
  refine ⟨?_, ?_, ?_, ?_, ?_⟩ <;> (rintro rfl; exact absurd h (by decide))

theorem wfIdent_chars {s : String} (h : wfIdent s = true) :
    s.data ≠ [] ∧ ∀ c ∈ s.data, identChar c = true := by
  unfold wfIdent at h
  simp only [Bool.and_eq_true, Bool.not_eq_true', List.isEmpty_eq_false,
    List.all_eq_true] at h
  exact h

/-- Characters of a well-formed state value string: never a delimiter. -/
theorem pyStrStateValue_chars (v : StateValue) (hwf : wfStateValue v = true) :
    (pyStrStateValue v).data ≠ [] ∧
      ∀ c ∈ (pyStrStateValue v).data,
        c ≠ ' ' ∧ c ≠ ',' ∧ c ≠ '[' ∧ c ≠ ']' ∧ c ≠ '=' := by
  cases v with
  | str s =>
      unfold wfStateValue at hwf
      simp only [Bool.and_eq_true, Bool.not_eq_true', List.isEmpty_eq_false,
        List.all_eq_true] at hwf
      exact ⟨hwf.1, fun c hc => stateValChar_ne (hwf.2 c hc)⟩
  | int n =>
      have hdata : (pyStrStateValue (.int n)).data =
          if n < 0 then '-' :: natDigits (-n).toNat else natDigits n.toNat := by
        show (intStr n).data = _
        unfold intStr
        by_cases hn : n < 0
        · simp only [if_pos hn]
        · simp only [if_neg hn]
      rw [hdata]
      by_cases hn : n < 0
      · simp only [if_pos hn]
        refine ⟨by simp, ?_⟩
        intro c hc
        rcases List.mem_cons.mp hc with rfl | hc
        · exact ⟨by decide, by decide, by decide, by decide, by decide⟩
        · have hne := isDigit_ne (natDigits_isDigit _ c hc)
          exact ⟨hne.1, hne.2.1, hne.2.2.1, hne.2.2.2.1, hne.2.2.2.2.1⟩
      · simp only [if_neg hn]
        refine ⟨natDigits_ne_nil _, ?_⟩
        intro c hc
        have hne := isDigit_ne (natDigits_isDigit _ c hc)
        exact ⟨hne.1, hne.2.1, hne.2.2.1, hne.2.2.2.1, hne.2.2.2.2.1⟩
  | bool b =>
      cases b with
      | false =>
          refine ⟨by decide, ?_⟩
          intro c hc
          have hd : (pyStrStateValue (.bool false)).data =
              ['F', 'a', 'l', 's', 'e'] := rfl
          rw [hd] at hc
          simp only [List.mem_cons, List.not_mem_nil, or_false] at hc
          rcases hc with rfl | rfl | rfl | rfl | rfl <;> exact (by decide)
      | true =>
          refine ⟨by decide, ?_⟩
          intro c hc
          have hd : (pyStrStateValue (.bool true)).data =
              ['T', 'r', 'u', 'e'] := rfl
          rw [hd] at hc
          simp only [List.mem_cons, List.not_mem_nil, or_false] at hc
          rcases hc with rfl | rfl | rfl | rfl <;> exact (by decide)

theorem joinComma_data : ∀ (strs : List String),
    (joinComma strs).data = joinSep ',' (strs.map (fun s => s.data)) := by
  intro strs
  induction strs with
  | nil => rfl
  | cons s rest ih =>
      cases rest with
      | nil => rfl
      | cons s2 rest2 =>
          show (s ++ "," ++ joinComma (s2 :: rest2)).data = _
          rw [String.data_append, String.data_append, ih]
          show (s.data ++ [',']) ++ _ = s.data ++ ',' :: joinSep ',' _
          rw [List.append_assoc]
          rfl

/-- The character list of one formatted `k=v` state pair. -/
theorem statePair_data (k : String) (v : StateValue) :
    (k ++ "=" ++ pyStrStateValue v).data = k.data ++ '=' :: (pyStrStateValue v).data := by
  rw [String.data_append, String.data_append]
  rw [List.append_assoc]
  rfl

theorem parseStatePair_format (k : String) (v : StateValue)
    (hk : wfIdent k = true) (hv : wfStateValue v = true) :
    parseStatePair ((k ++ "=" ++ pyStrStateValue v).data) =
      some (k, parseStateValue ((pyStrStateValue v).data)) := by
  obtain ⟨hk1, hk2⟩ := wfIdent_chars hk
  obtain ⟨hv1, hv2⟩ := pyStrStateValue_chars v hv
  rw [statePair_data]
  unfold parseStatePair
  rw [splitGo_token_cons '=' k.data _ hk1
      (fun c hc => (identChar_ne (hk2 c hc)).2.2.2.2.2.1),
    splitGo_last_token '=' _ hv1 (fun c hc => (hv2 c hc).2.2.2.2)]

theorem mapM_parseStatePair : ∀ (ps : List (String × StateValue)),
    (∀ kv ∈ ps, wfIdent kv.1 = true ∧ wfStateValue kv.2 = true) →
    ∃ qs : List (String × StateValue),
      ((ps.map (fun kv => (kv.1 ++ "=" ++ pyStrStateValue kv.2).data)).mapM
          parseStatePair) = some qs ∧ qs.length = ps.length := by
  intro ps
  induction ps with
  | nil => intro _; exact ⟨[], rfl, rfl⟩
  | cons kv t ih =>
      intro h
      obtain ⟨qs, hqs, hlen⟩ := ih (fun u hu => h u (by simp [hu]))
      refine ⟨(kv.1, parseStateValue ((pyStrStateValue kv.2).data)) :: qs, ?_, ?_⟩
      · rw [List.map_cons, List.mapM_cons,
          parseStatePair_format kv.1 kv.2 (h kv (by simp)).1 (h kv (by simp)).2,
          hqs]
        rfl
      · simp [hlen]

/-- Parsing a formatted well-formed block spec succeeds and preserves the
namespace and the block id. -/
theorem parseBlockTok_format (b : BlockSpec) (hwf : wfBlockSpec b = true) :
    ∃ st2, parseBlockTok ((format_block b).data) =
      some ⟨b.ns, b.block_id, st2⟩ := by
  unfold wfBlockSpec at hwf
  simp only [Bool.and_eq_true] at hwf
  obtain ⟨⟨hns, hid⟩, hst⟩ := hwf
  obtain ⟨hns1, hns2⟩ := wfIdent_chars hns
  obtain ⟨hid1, hid2⟩ := wfIdent_chars hid
  have hfull : (BlockSpec.full_id b).data =
      b.ns.data ++ ':' :: b.block_id.data := by
    unfold BlockSpec.full_id
    rw [String.data_append, String.data_append, List.append_assoc]
    rfl
  have hidchars : ∀ c ∈ b.ns.data ++ ':' :: b.block_id.data,
      (!(c == '[')) = true := by
    intro c hc
    simp only [Bool.not_eq_true', beq_eq_false_iff_ne]
    rcases List.mem_append.mp hc with hc | hc
    · exact (identChar_ne (hns2 c hc)).2.2.1
    · rcases List.mem_cons.mp hc with rfl | hc
      · decide
      · exact (identChar_ne (hid2 c hc)).2.2.1
  have hnstake : (b.ns.data ++ ':' :: b.block_id.data).takeWhile
      (fun c => !(c == ':')) = b.ns.data := by
    apply takeWhile_append_stop
    · intro c hc
      simp only [Bool.not_eq_true', beq_eq_false_iff_ne]
      exact (identChar_ne (hns2 c hc)).2.1
    · decide
  have hnsdrop : (b.ns.data ++ ':' :: b.block_id.data).dropWhile
      (fun c => !(c == ':')) = ':' :: b.block_id.data := by
    apply dropWhile_append_stop
    · intro c hc
      simp only [Bool.not_eq_true', beq_eq_false_iff_ne]
      exact (identChar_ne (hns2 c hc)).2.1
    · decide
  cases hstates : b.states with
  | none =>
      have hdata : (format_block b).data =
          b.ns.data ++ ':' :: b.block_id.data := by
        unfold format_block
        rw [hstates]
        exact hfull
      refine ⟨none, ?_⟩
      rw [hdata]
      unfold parseBlockTok
      simp only [takeWhile_all _ hidchars, dropWhile_all _ hidchars,
        hnstake, hnsdrop]
      rw [if_neg hid1]
  | some ps =>
      cases ps with
      | nil =>
          rw [hstates] at hst
          simp at hst
      | cons kv0 ps2 =>
          rw [hstates] at hst
          simp only [Bool.and_eq_true, List.all_eq_true] at hst
          obtain ⟨-, hall⟩ := hst
          have hpairchars : ∀ t ∈ ((kv0 :: ps2).map
              (fun kv => (kv.1 ++ "=" ++ pyStrStateValue kv.2).data)),
              t ≠ [] ∧ ∀ c ∈ t, c ≠ ',' := by
            intro t ht
            simp only [List.mem_map] at ht
            obtain ⟨kv, hkv, rfl⟩ := ht
            obtain ⟨hk1, hk2⟩ := wfIdent_chars (hall kv hkv).1
            obtain ⟨hv1, hv2⟩ := pyStrStateValue_chars kv.2 (hall kv hkv).2
            rw [statePair_data]
            refine ⟨by simp, ?_⟩
            intro c hc
            rcases List.mem_append.mp hc with hc | hc
            · exact (identChar_ne (hk2 c hc)).2.2.2.2.1
            · rcases List.mem_cons.mp hc with rfl | hc
              · decide
              · exact (hv2 c hc).2.1
          have hdata : (format_block b).data =
              (b.ns.data ++ ':' :: b.block_id.data) ++
                '[' :: (joinSep ',' (((kv0 :: ps2).map
                  (fun kv => (kv.1 ++ "=" ++ pyStrStateValue kv.2).data))) ++
                  [']']) := by
            unfold format_block
            rw [hstates]
            show (b.full_id ++ "[" ++
              joinComma ((kv0 :: ps2).map
                (fun kv => kv.1 ++ "=" ++ pyStrStateValue kv.2)) ++ "]").data = _
            rw [String.data_append, String.data_append, String.data_append,
              hfull, joinComma_data, List.map_map]
            simp only [List.append_assoc, Function.comp]
            rfl
          obtain ⟨qs, hqs, hlen⟩ := mapM_parseStatePair (kv0 :: ps2)
            (fun u hu => hall u hu)
          cases qs with
          | nil => simp at hlen
          | cons q qs2 =>
              refine ⟨some (q :: qs2), ?_⟩
              rw [hdata]
              unfold parseBlockTok
              simp only [takeWhile_append_stop _ '[' _ hidchars (by decide),
                dropWhile_append_stop _ '[' _ hidchars (by decide),
                hnstake, hnsdrop]
              rw [if_neg hid1]
              simp only [List.getLast?_concat, List.dropLast_concat, if_true]
              rw [splitGo_joinSep ',' _ hpairchars, hqs]

theorem mem_joinSep (sep : Char) : ∀ (pieces : List (List Char)) (c : Char),
    c ∈ joinSep sep pieces → c = sep ∨ ∃ t ∈ pieces, c ∈ t := by
  intro pieces
  induction pieces with
  | nil => intro c hc; exact absurd hc (by simp [joinSep])
  | cons t ts ih =>
      intro c hc
      cases ts with
      | nil =>
          exact Or.inr ⟨t, by simp, hc⟩
      | cons t2 ts2 =>
          have hc2 : c ∈ t ++ sep :: joinSep sep (t2 :: ts2) := hc
          rcases List.mem_append.mp hc2 with hc3 | hc3
          · exact Or.inr ⟨t, by simp, hc3⟩
          · rcases List.mem_cons.mp hc3 with rfl | hc3
            · exact Or.inl rfl
            · rcases ih c hc3 with h | ⟨u, hu, hcu⟩
              · exact Or.inl h
              · exact Or.inr ⟨u, by simp [hu], hcu⟩

/-- The formatted block token is non-empty and space-free. -/
theorem format_block_chars (b : BlockSpec) (hwf : wfBlockSpec b = true) :
    (format_block b).data ≠ [] ∧ ∀ c ∈ (format_block b).data, c ≠ ' ' := by
  unfold wfBlockSpec at hwf
  simp only [Bool.and_eq_true] at hwf
  obtain ⟨⟨hns, hid⟩, hst⟩ := hwf
  obtain ⟨hns1, hns2⟩ := wfIdent_chars hns
  obtain ⟨hid1, hid2⟩ := wfIdent_chars hid
  have hfull : (BlockSpec.full_id b).data =
      b.ns.data ++ ':' :: b.block_id.data := by
    unfold BlockSpec.full_id
    rw [String.data_append, String.data_append, List.append_assoc]
    rfl
  have hfullchars : ∀ c ∈ b.ns.data ++ ':' :: b.block_id.data, c ≠ ' ' := by
    intro c hc
    rcases List.mem_append.mp hc with hc | hc
    · exact (identChar_ne (hns2 c hc)).1
    · rcases List.mem_cons.mp hc with rfl | hc
      · decide
      · exact (identChar_ne (hid2 c hc)).1
  cases hstates : b.states with
  | none =>
      have hdata : (format_block b).data =
          b.ns.data ++ ':' :: b.block_id.data := by
        unfold format_block
        rw [hstates]
        exact hfull
      rw [hdata]
      exact ⟨by simp [hns1], hfullchars⟩
  | some ps =>
      cases ps with
      | nil =>
          have hdata : (format_block b).data =
              b.ns.data ++ ':' :: b.block_id.data := by
            unfold format_block
            rw [hstates]
            exact hfull
          rw [hdata]
          exact ⟨by simp [hns1], hfullchars⟩
      | cons kv0 ps2 =>
          rw [hstates] at hst
          simp only [Bool.and_eq_true, List.all_eq_true] at hst
          obtain ⟨-, hall⟩ := hst
          have hdata : (format_block b).data =
              (b.ns.data ++ ':' :: b.block_id.data) ++
                '[' :: (joinSep ',' (((kv0 :: ps2).map
                  (fun kv => (kv.1 ++ "=" ++ pyStrStateValue kv.2).data))) ++
                  [']']) := by
            unfold format_block
            rw [hstates]
            show (b.full_id ++ "[" ++
              joinComma ((kv0 :: ps2).map
                (fun kv => kv.1 ++ "=" ++ pyStrStateValue kv.2)) ++ "]").data = _
            rw [String.data_append, String.data_append, String.data_append,
              hfull, joinComma_data, List.map_map]
            simp only [List.append_assoc, Function.comp]
            rfl
          rw [hdata]
          refine ⟨by simp, ?_⟩
          intro c hc
          rcases List.mem_append.mp hc with hc | hc
          · exact hfullchars c hc
          · rcases List.mem_cons.mp hc with rfl | hc
            · decide
            · rcases List.mem_append.mp hc with hc | hc
              · rcases mem_joinSep ',' _ c hc with rfl | ⟨t, ht, hct⟩
                · decide
                · simp only [List.mem_map] at ht
                  obtain ⟨kv, hkv, rfl⟩ := ht
                  rw [statePair_data] at hct
                  rcases List.mem_append.mp hct with hct | hct
                  · exact (identChar_ne ((wfIdent_chars (hall kv hkv).1).2 c hct)).1
                  · rcases List.mem_cons.mp hct with rfl | hct
                    · decide
                    · exact ((pyStrStateValue_chars kv.2 (hall kv hkv).2).2 c hct).1
              · simp only [List.mem_singleton] at hc
                subst hc
                decide

theorem modeString_chars (m : FillMode) :
    (modeString m).data ≠ [] ∧ ∀ c ∈ (modeString m).data, c ≠ ' ' := by
  cases m <;> exact ⟨by decide, by intro c hc; revert c hc; decide⟩

theorem parseModeTok_modeString (m : FillMode) :
    parseModeTok ((modeString m).data) = some m := by
  cases m <;> rfl

theorem dropWhile_slash_cons_of_ne (a : Char) (t : List Char)
    (ha : (a == '/') = false) :
    ('/' :: a :: t).dropWhile (fun c => c == '/') = a :: t := by
  rw [List.dropWhile_cons, if_pos (by decide), List.dropWhile_cons]
  simp [ha]

theorem parseCommand_convert_setblock (vx vy vz bx b2 bz : Int)
    (blk : BlockSpec) (hwf : wfBlockSpec blk = true) :
    ∃ st2, parseCommand (convert_command
        (.setblock ⟨⟨⟨vx, false⟩, ⟨vy, false⟩, ⟨vz, false⟩⟩, blk⟩)
        (bx, b2, bz)) =
      some (.setblock ⟨⟨⟨vx - bx, true⟩, ⟨vy - b2, true⟩, ⟨vz - bz, true⟩⟩,
        ⟨blk.ns, blk.block_id, st2⟩⟩) := by
  obtain ⟨st2, hblk⟩ := parseBlockTok_format blk hwf
  obtain ⟨hfb1, hfb2⟩ := format_block_chars blk hwf
  refine ⟨st2, ?_⟩
  have hcmd : (convert_command
      (.setblock ⟨⟨⟨vx, false⟩, ⟨vy, false⟩, ⟨vz, false⟩⟩, blk⟩)
      (bx, b2, bz)).data
      = '/' :: joinSep ' ' ["setblock".data,
          (convert_coord ⟨vx, false⟩ bx).data,
          (convert_coord ⟨vy, false⟩ b2).data,
          (convert_coord ⟨vz, false⟩ bz).data,
          (format_block blk).data] := by
    show ("/setblock " ++
        (convert_coord ⟨vx, false⟩ bx ++ " " ++ convert_coord ⟨vy, false⟩ b2 ++
          " " ++ convert_coord ⟨vz, false⟩ bz) ++ " " ++ format_block blk).data = _
    simp only [String.data_append, List.append_assoc, List.singleton_append,
        List.cons_append]
    rfl
  unfold parseCommand
  rw [hcmd]
  have hjs : joinSep ' ' ["setblock".data,
      (convert_coord ⟨vx, false⟩ bx).data,
      (convert_coord ⟨vy, false⟩ b2).data,
      (convert_coord ⟨vz, false⟩ bz).data,
      (format_block blk).data] =
    's' :: ("etblock".data ++ ' ' :: joinSep ' '
      [(convert_coord ⟨vx, false⟩ bx).data,
       (convert_coord ⟨vy, false⟩ b2).data,
       (convert_coord ⟨vz, false⟩ bz).data,
       (format_block blk).data]) := rfl
  rw [hjs, dropWhile_slash_cons_of_ne 's' _ (by decide), ← hjs]
  unfold tokenize
  rw [splitGo_joinSep ' ' _ ?hts]
  case hts =>
    intro t ht
    simp only [List.mem_cons, List.not_mem_nil, or_false] at ht
    rcases ht with rfl | rfl | rfl | rfl | rfl
    · exact ⟨by decide, by intro c hc; revert c hc; decide⟩
    · exact convert_coord_abs_chars vx bx
    · exact convert_coord_abs_chars vy b2
    · exact convert_coord_abs_chars vz bz
    · exact ⟨hfb1, hfb2⟩
  rw [parseCommandTokens, if_pos rfl]
  rw [parseCoordTok_convert_abs, parseCoordTok_convert_abs,
    parseCoordTok_convert_abs, hblk]
  rfl

theorem parseCommand_convert_fill (v1x v1y v1z v2x v2y v2z bx b2 bz : Int)
    (blk : BlockSpec) (m : FillMode) (hwf : wfBlockSpec blk = true) :
    ∃ st2, parseCommand (convert_command
        (.fill ⟨⟨⟨v1x, false⟩, ⟨v1y, false⟩, ⟨v1z, false⟩⟩,
               ⟨⟨v2x, false⟩, ⟨v2y, false⟩, ⟨v2z, false⟩⟩, blk, m⟩)
        (bx, b2, bz)) =
      some (.fill ⟨⟨⟨v1x - bx, true⟩, ⟨v1y - b2, true⟩, ⟨v1z - bz, true⟩⟩,
        ⟨⟨v2x - bx, true⟩, ⟨v2y - b2, true⟩, ⟨v2z - bz, true⟩⟩,
        ⟨blk.ns, blk.block_id, st2⟩, m⟩) := by
  obtain ⟨st2, hblk⟩ := parseBlockTok_format blk hwf
  obtain ⟨hfb1, hfb2⟩ := format_block_chars blk hwf
  refine ⟨st2, ?_⟩
  by_cases hm : m = FillMode.replace
  · subst hm
    have hcmd : (convert_command
        (.fill ⟨⟨⟨v1x, false⟩, ⟨v1y, false⟩, ⟨v1z, false⟩⟩,
               ⟨⟨v2x, false⟩, ⟨v2y, false⟩, ⟨v2z, false⟩⟩, blk, .replace⟩)
        (bx, b2, bz)).data
        = '/' :: joinSep ' ' ["fill".data,
            (convert_coord ⟨v1x, false⟩ bx).data,
            (convert_coord ⟨v1y, false⟩ b2).data,
            (convert_coord ⟨v1z, false⟩ bz).data,
            (convert_coord ⟨v2x, false⟩ bx).data,
            (convert_coord ⟨v2y, false⟩ b2).data,
            (convert_coord ⟨v2z, false⟩ bz).data,
            (format_block blk).data] := by
      show ("/fill " ++
          (convert_coord ⟨v1x, false⟩ bx ++ " " ++ convert_coord ⟨v1y, false⟩ b2
            ++ " " ++ convert_coord ⟨v1z, false⟩ bz) ++ " " ++
          (convert_coord ⟨v2x, false⟩ bx ++ " " ++ convert_coord ⟨v2y, false⟩ b2
            ++ " " ++ convert_coord ⟨v2z, false⟩ bz) ++ " " ++
          format_block blk).data = _
      simp only [String.data_append, List.append_assoc, List.singleton_append,
        List.cons_append]
      rfl
    unfold parseCommand
    rw [hcmd]
    have hjs : joinSep ' ' ["fill".data,
        (convert_coord ⟨v1x, false⟩ bx).data,
        (convert_coord ⟨v1y, false⟩ b2).data,
        (convert_coord ⟨v1z, false⟩ bz).data,
        (convert_coord ⟨v2x, false⟩ bx).data,
        (convert_coord ⟨v2y, false⟩ b2).data,
        (convert_coord ⟨v2z, false⟩ bz).data,
        (format_block blk).data] =
      'f' :: ("ill".data ++ ' ' :: joinSep ' '
        [(convert_coord ⟨v1x, false⟩ bx).data,
         (convert_coord ⟨v1y, false⟩ b2).data,
         (convert_coord ⟨v1z, false⟩ bz).data,
         (convert_coord ⟨v2x, false⟩ bx).data,
         (convert_coord ⟨v2y, false⟩ b2).data,
         (convert_coord ⟨v2z, false⟩ bz).data,
         (format_block blk).data]) := rfl
    rw [hjs, dropWhile_slash_cons_of_ne 'f' _ (by decide), ← hjs]
    unfold tokenize
    rw [splitGo_joinSep ' ' _ ?hts]
    case hts =>
      intro t ht
      simp only [List.mem_cons, List.not_mem_nil, or_false] at ht
      rcases ht with rfl | rfl | rfl | rfl | rfl | rfl | rfl | rfl
      · exact ⟨by decide, by intro c hc; revert c hc; decide⟩
      · exact convert_coord_abs_chars v1x bx
      · exact convert_coord_abs_chars v1y b2
      · exact convert_coord_abs_chars v1z bz
      · exact convert_coord_abs_chars v2x bx
      · exact convert_coord_abs_chars v2y b2
      · exact convert_coord_abs_chars v2z bz
      · exact ⟨hfb1, hfb2⟩
    rw [parseCommandTokens, if_neg (by decide), if_pos rfl]
    rw [parseCoordTok_convert_abs, parseCoordTok_convert_abs,
      parseCoordTok_convert_abs, parseCoordTok_convert_abs,
      parseCoordTok_convert_abs, parseCoordTok_convert_abs, hblk]
    rfl
  · have hcmd : (convert_command
        (.fill ⟨⟨⟨v1x, false⟩, ⟨v1y, false⟩, ⟨v1z, false⟩⟩,
               ⟨⟨v2x, false⟩, ⟨v2y, false⟩, ⟨v2z, false⟩⟩, blk, m⟩)
        (bx, b2, bz)).data
        = '/' :: joinSep ' ' ["fill".data,
            (convert_coord ⟨v1x, false⟩ bx).data,
            (convert_coord ⟨v1y, false⟩ b2).data,
            (convert_coord ⟨v1z, false⟩ bz).data,
            (convert_coord ⟨v2x, false⟩ bx).data,
            (convert_coord ⟨v2y, false⟩ b2).data,
            (convert_coord ⟨v2z, false⟩ bz).data,
            (format_block blk).data,
            (modeString m).data] := by
      show ((if m = FillMode.replace then
          ("/fill " ++
            (convert_coord ⟨v1x, false⟩ bx ++ " " ++ convert_coord ⟨v1y, false⟩ b2
              ++ " " ++ convert_coord ⟨v1z, false⟩ bz) ++ " " ++
            (convert_coord ⟨v2x, false⟩ bx ++ " " ++ convert_coord ⟨v2y, false⟩ b2
              ++ " " ++ convert_coord ⟨v2z, false⟩ bz) ++ " " ++
            format_block blk)
        else
          ("/fill " ++
            (convert_coord ⟨v1x, false⟩ bx ++ " " ++ convert_coord ⟨v1y, false⟩ b2
              ++ " " ++ convert_coord ⟨v1z, false⟩ bz) ++ " " ++
            (convert_coord ⟨v2x, false⟩ bx ++ " " ++ convert_coord ⟨v2y, false⟩ b2
              ++ " " ++ convert_coord ⟨v2z, false⟩ bz) ++ " " ++
            format_block blk) ++ " " ++ modeString m) : String).data = _
      rw [if_neg hm]
      simp only [String.data_append, List.append_assoc, List.singleton_append,
        List.cons_append]
      rfl
    unfold parseCommand
    rw [hcmd]
    have hjs : joinSep ' ' ["fill".data,
        (convert_coord ⟨v1x, false⟩ bx).data,
        (convert_coord ⟨v1y, false⟩ b2).data,
        (convert_coord ⟨v1z, false⟩ bz).data,
        (convert_coord ⟨v2x, false⟩ bx).data,
        (convert_coord ⟨v2y, false⟩ b2).data,
        (convert_coord ⟨v2z, false⟩ bz).data,
        (format_block blk).data,
        (modeString m).data] =
      'f' :: ("ill".data ++ ' ' :: joinSep ' '
        [(convert_coord ⟨v1x, false⟩ bx).data,
         (convert_coord ⟨v1y, false⟩ b2).data,
         (convert_coord ⟨v1z, false⟩ bz).data,
         (convert_coord ⟨v2x, false⟩ bx).data,
         (convert_coord ⟨v2y, false⟩ b2).data,
         (convert_coord ⟨v2z, false⟩ bz).data,
         (format_block blk).data,
         (modeString m).data]) := rfl
    rw [hjs, dropWhile_slash_cons_of_ne 'f' _ (by decide), ← hjs]
    unfold tokenize
    rw [splitGo_joinSep ' ' _ ?hts]
    case hts =>
      intro t ht
      simp only [List.mem_cons, List.not_mem_nil, or_false] at ht
      rcases ht with rfl | rfl | rfl | rfl | rfl | rfl | rfl | rfl | rfl
      · exact ⟨by decide, by intro c hc; revert c hc; decide⟩
      · exact convert_coord_abs_chars v1x bx
      · exact convert_coord_abs_chars v1y b2
      · exact convert_coord_abs_chars v1z bz
      · exact convert_coord_abs_chars v2x bx
      · exact convert_coord_abs_chars v2y b2
      · exact convert_coord_abs_chars v2z bz
      · exact ⟨hfb1, hfb2⟩
      · exact modeString_chars m
    rw [parseCommandTokens, if_neg (by decide), if_pos rfl]
    rw [parseCoordTok_convert_abs, parseCoordTok_convert_abs,
      parseCoordTok_convert_abs, parseCoordTok_convert_abs,
      parseCoordTok_convert_abs, parseCoordTok_convert_abs, hblk,
      parseModeTok_modeString]
    rfl

/-- C10: conversion to relative coordinates round-trips through resolution —
for every grammar-producible command whose coordinates are all absolute and
every base point, the converted command string parses back (spec-modelled
grammar) to a command of the same kind whose positions resolve against the
base point to the original absolute coordinates, with namespace, block id
and fill mode unchanged. -/
theorem convert_parse_round_trip (cmd : CommandAST) (base : Int × Int × Int)
    (hwf : wfCommand cmd = true) (habs : allAbsolute cmd = true) :
    (match cmd with
     | .setblock c => ∃ p blk,
         parseCommand (convert_command cmd base) = some (.setblock ⟨p, blk⟩) ∧
         Position.resolve p base =
           (c.position.x.value, c.position.y.value, c.position.z.value) ∧
         blk.ns = c.block.ns ∧ blk.block_id = c.block.block_id
     | .fill c => ∃ p1 p2 blk,
         parseCommand (convert_command cmd base) =
           some (.fill ⟨p1, p2, blk, c.mode⟩) ∧
         Position.resolve p1 base =
           (c.pos1.x.value, c.pos1.y.value, c.pos1.z.value) ∧
         Position.resolve p2 base =
           (c.pos2.x.value, c.pos2.y.value, c.pos2.z.value) ∧
         blk.ns = c.block.ns ∧ blk.block_id = c.block.block_id) := by
  obtain ⟨bx, b2, bz⟩ := base
  cases cmd with
  | setblock c =>
      obtain ⟨⟨⟨vx, rx⟩, ⟨vy, ry⟩, ⟨vz, rz⟩⟩, blk⟩ := c
      simp only [allAbsolute, allAbsolutePos, Bool.and_eq_true,
        Bool.not_eq_true'] at habs
      obtain ⟨⟨hrx, hry⟩, hrz⟩ := habs
      subst hrx
      subst hry
      subst hrz
      simp only [wfCommand] at hwf
      obtain ⟨st2, hparse⟩ := parseCommand_convert_setblock vx vy vz bx b2 bz
        blk hwf
      refine ⟨⟨⟨vx - bx, true⟩, ⟨vy - b2, true⟩, ⟨vz - bz, true⟩⟩,
        ⟨blk.ns, blk.block_id, st2⟩, hparse, ?_, rfl, rfl⟩
      show ((if (true : Bool) then bx + (vx - bx) else vx - bx),
            (if (true : Bool) then b2 + (vy - b2) else vy - b2),
            (if (true : Bool) then bz + (vz - bz) else vz - bz)) = _
      simp only [if_true]
      simp only [Prod.mk.injEq]
      omega
  | fill c =>
      obtain ⟨⟨⟨v1x, r1x⟩, ⟨v1y, r1y⟩, ⟨v1z, r1z⟩⟩,
        ⟨⟨v2x, r2x⟩, ⟨v2y, r2y⟩, ⟨v2z, r2z⟩⟩, blk, m⟩ := c
      simp only [allAbsolute, allAbsolutePos, Bool.and_eq_true,
        Bool.not_eq_true'] at habs
      obtain ⟨⟨⟨h1x, h1y⟩, h1z⟩, ⟨⟨h2x, h2y⟩, h2z⟩⟩ := habs
      subst h1x
      subst h1y
      subst h1z
      subst h2x
      subst h2y
      subst h2z
      simp only [wfCommand] at hwf
      obtain ⟨st2, hparse⟩ := parseCommand_convert_fill v1x v1y v1z v2x v2y v2z
        bx b2 bz blk m hwf
      refine ⟨⟨⟨v1x - bx, true⟩, ⟨v1y - b2, true⟩, ⟨v1z - bz, true⟩⟩,
        ⟨⟨v2x - bx, true⟩, ⟨v2y - b2, true⟩, ⟨v2z - bz, true⟩⟩,
        ⟨blk.ns, blk.block_id, st2⟩, hparse, ?_, ?_, rfl, rfl⟩
      · show ((if (true : Bool) then bx + (v1x - bx) else v1x - bx),
              (if (true : Bool) then b2 + (v1y - b2) else v1y - b2),
              (if (true : Bool) then bz + (v1z - bz) else v1z - bz)) = _
        simp only [if_true]
        simp only [Prod.mk.injEq]
        omega
      · show ((if (true : Bool) then bx + (v2x - bx) else v2x - bx),
              (if (true : Bool) then b2 + (v2y - b2) else v2y - b2),
              (if (true : Bool) then bz + (v2z - bz) else v2z - bz)) = _
        simp only [if_true]
        simp only [Prod.mk.injEq]
        omega

/-- C10 witness: a setblock with namespaced block, states and negative
coordinate, converted against base `(1, 64, 0)`, parses back and resolves to
the original absolute coordinates with namespace and id unchanged. -/
theorem convert_parse_round_trip_witness :
    (wfCommand (.setblock ⟨⟨⟨5, false⟩, ⟨64, false⟩, ⟨-3, false⟩⟩,
        ⟨"minecraft", "stone", some [("facing", .str "north"),
          ("lit", .bool true)]⟩⟩) = true ∧
     allAbsolute (.setblock ⟨⟨⟨5, false⟩, ⟨64, false⟩, ⟨-3, false⟩⟩,
        ⟨"minecraft", "stone", some [("facing", .str "north"),
          ("lit", .bool true)]⟩⟩) = true) ∧
    (∃ p blk, parseCommand (convert_command
        (.setblock ⟨⟨⟨5, false⟩, ⟨64, false⟩, ⟨-3, false⟩⟩,
          ⟨"minecraft", "stone", some [("facing", .str "north"),
            ("lit", .bool true)]⟩⟩) (1, 64, 0)) = some (.setblock ⟨p, blk⟩) ∧
      Position.resolve p (1, 64, 0) = (5, 64, -3) ∧
      blk.ns = "minecraft" ∧ blk.block_id = "stone") :=
  ⟨⟨by decide, by decide⟩,
   convert_parse_round_trip
     (.setblock ⟨⟨⟨5, false⟩, ⟨64, false⟩, ⟨-3, false⟩⟩,
       ⟨"minecraft", "stone", some [("facing", .str "north"),
         ("lit", .bool true)]⟩⟩) (1, 64, 0) (by decide) (by decide)⟩

end Holodeck
